import Mathlib

/-!
# Formal model of the SympJS symbolic-algebra core

Shallow embedding of the expression-tree core of the SympJS repository:

* `src/types/symbols.ts` — `Symbols` / `Constant` / `SymbolicExpression`,
  `toString`, the free function `differentiate`;
* `src/index.ts` — the `Integral` class and `integrate` (this copy of the
  symbols module also gives `Constant` a working `valueOf`/`getValue`);
* `src/lib/algebra.ts` — `Simplifier` (`simplify`, `applyAllRules`,
  the five per-operator rule methods, `isConstant`);
* `src/types/trigonometry.ts` — the nine trig subclasses, their
  `differentiate` overrides, `simplifyTrig`, `isCommonAngle`,
  `getExactValue`, `simplifySin`, `simplifyCos`, `isPi`, `pi`;
* `src/lib/taylor.ts` — `TaylorSeries.simplifyNumericExpression`.

Modeling choices, stated once here:

* JavaScript numbers are modelled by `JsNum`: an exact rational together
  with the IEEE special values `Infinity`, `-Infinity` and `NaN`.  The
  special-value propagation of the arithmetic operators follows the
  ECMAScript rules; rounding of doubles is idealised away (every concrete
  value appearing in a theorem below is integer-valued, where double
  arithmetic is exact).  There is no negative zero.
* `Constant.name` is `value.toString()` and every fold re-parses it with
  `parseFloat`; since that round-trip is the identity on doubles, the model
  stores the value directly and `numToStr` renders it (JS style: integers
  without a decimal point, `"NaN"`, `"Infinity"`).
* The transcendental primitives `Math.log`, fractional `Math.pow`,
  `Math.sqrt` and `Math.PI` have no exact rational value; the model is
  parametric in them via the `JsPrim` bundle.  No theorem below depends on
  their values.
* The reference-identity test `expr === variable` at the top of
  `differentiate` is modelled by structural equality.  For the only second
  arguments the claims use — plain variables — the following name-based
  branch returns the same answer, so the difference is unobservable here.
* Class identity matters: trig nodes and `Integral` nodes are separate
  constructors of `Term` carrying their subclass identity, while generic
  `SymbolicExpression` nodes are `Term.expr`.  Rebuilding a node with
  `new SymbolicExpression(args, op)` (as `applyAllRules` does) produces a
  generic `Term.expr`, discarding the subclass.
* `trigonometry.ts` imports `Constant` from `types/symbols.ts`, whose
  `Constant` (lines 81–85) defines **no** `getValue` method (only the copy
  inside `index.ts` does).  The two `angle.getValue()` /
  `denominator.getValue()` calls in `isCommonAngle` therefore throw a
  `TypeError` at run time; they are modelled as `Err.typeError`.
* Code paths that dereference a missing operand (`const [a, b] = args`
  with fewer than two operands under an arithmetic operator) are modelled
  as `Err.typeError`.  The spec's data model fixes the arity of every
  operator at construction, so these paths are unreachable for well-formed
  terms (`wf` below); theorems quantifying over all terms carry `wf`.
* JavaScript recursion in `integrate` is unbounded (the spec documents the
  by-parts heuristic as having "no termination guard"); the model adds an
  explicit fuel parameter, with exhaustion as the distinguished error
  `Err.outOfFuel`.
-/

/-- Rational addition, written out over `Rat.divInt` so that it reduces
inside the kernel (the ambient field operations on `ℚ` do not). -/
def qAdd (a b : ℚ) : ℚ := Rat.divInt (a.num * b.den + b.num * a.den) (a.den * b.den)

/-- Rational negation over `Rat.divInt`. -/
def qNeg (a : ℚ) : ℚ := Rat.divInt (-a.num) a.den

/-- Rational subtraction over `Rat.divInt`. -/
def qSub (a b : ℚ) : ℚ := Rat.divInt (a.num * b.den - b.num * a.den) (a.den * b.den)

/-- Rational multiplication over `Rat.divInt`. -/
def qMul (a b : ℚ) : ℚ := Rat.divInt (a.num * b.num) (a.den * b.den)

/-- Rational division over `Rat.divInt` (total, `0` at a zero divisor;
all uses below guard the divisor). -/
def qDiv (a b : ℚ) : ℚ := Rat.divInt (a.num * b.den) (a.den * b.num)

/-- Rational absolute value. -/
def qAbs (a : ℚ) : ℚ := if a.num < 0 then qNeg a else a

/-- Rational natural power by iterated `qMul`. -/
def qPowNat (a : ℚ) : ℕ → ℚ
  | 0 => 1
  | n + 1 => qMul (qPowNat a n) a

/-- Rational integer power (callers ensure a nonzero base for negative
exponents). -/
def qPowInt (a : ℚ) (i : ℤ) : ℚ :=
  if 0 ≤ i then qPowNat a i.toNat else qPowNat (Rat.divInt a.den a.num) (-i).toNat

/-- JavaScript number: exact rational plus the IEEE special values.
`Constant` stores such a value; all folds compute with it. -/
inductive JsNum where
  | num (q : ℚ)
  | inf
  | negInf
  | nan
  deriving DecidableEq

/-- Negation of a JS number. -/
def jsNeg : JsNum → JsNum
  | .num q => .num (qNeg q)
  | .inf => .negInf
  | .negInf => .inf
  | .nan => .nan

/-- JS addition (`+` on doubles): `NaN` absorbs, `∞ + (-∞) = NaN`. -/
def jsAdd : JsNum → JsNum → JsNum
  | .nan, _ => .nan
  | _, .nan => .nan
  | .inf, .negInf => .nan
  | .negInf, .inf => .nan
  | .inf, _ => .inf
  | _, .inf => .inf
  | .negInf, _ => .negInf
  | _, .negInf => .negInf
  | .num a, .num b => .num (qAdd a b)

/-- JS subtraction, `a - b = a + (-b)` (exact for the special values). -/
def jsSub (a b : JsNum) : JsNum := jsAdd a (jsNeg b)

/-- JS multiplication: `0 * ∞ = NaN`, signs propagate. -/
def jsMul : JsNum → JsNum → JsNum
  | .nan, _ => .nan
  | _, .nan => .nan
  | .num a, .num b => .num (qMul a b)
  | .inf, .num b => if b = 0 then .nan else if 0 < b then .inf else .negInf
  | .num a, .inf => if a = 0 then .nan else if 0 < a then .inf else .negInf
  | .negInf, .num b => if b = 0 then .nan else if 0 < b then .negInf else .inf
  | .num a, .negInf => if a = 0 then .nan else if 0 < a then .negInf else .inf
  | .inf, .inf => .inf
  | .negInf, .negInf => .inf
  | .inf, .negInf => .negInf
  | .negInf, .inf => .negInf

/-- JS division: `x/0` is `±∞` (or `NaN` for `0/0`), `∞/∞ = NaN`,
`x/∞ = 0`.  (The model has no signed zero, so the sign of a zero
denominator is taken as positive, as JS's literal `0` is.) -/
def jsDiv : JsNum → JsNum → JsNum
  | .nan, _ => .nan
  | _, .nan => .nan
  | .num a, .num b =>
      if b = 0 then (if a = 0 then .nan else if 0 < a then .inf else .negInf)
      else .num (qDiv a b)
  | .num _, .inf => .num 0
  | .num _, .negInf => .num 0
  | .inf, .num b => if 0 ≤ b then .inf else .negInf
  | .negInf, .num b => if 0 ≤ b then .negInf else .inf
  | .inf, _ => .nan
  | .negInf, _ => .nan

/-- Irrational-valued primitives of the JS `Math` object, left abstract:
`Math.PI`, `Math.sqrt 2`, `Math.sqrt 3`, `Math.pow` at a positive base and
non-integer exponent, and `Math.log` at a positive argument distinct from
the special cases.  No theorem below depends on their values. -/
structure JsPrim where
  piVal : ℚ
  sqrt2 : ℚ
  sqrt3 : ℚ
  powFrac : ℚ → ℚ → JsNum
  logPos : ℚ → JsNum

/-- JS `Math.pow`, per the ECMAScript specification: any exponent `±0`
gives `1` (even for a `NaN` base), a `NaN` exponent gives `NaN`, integer
exponents are exact powers, `0` to a negative power is `∞`, a negative
base with a fractional exponent is `NaN`. -/
def jsPow (P : JsPrim) : JsNum → JsNum → JsNum
  | a, .num qb =>
      if qb = 0 then .num 1
      else
        match a with
        | .nan => .nan
        | .num qa =>
            if qb.den = 1 then
              if qa = 0 then (if qb.num < 0 then .inf else .num 0)
              else .num (qPowInt qa qb.num)
            else
              if qa < 0 then .nan
              else if qa = 0 then (if 0 < qb then .num 0 else .inf)
              else P.powFrac qa qb
        | .inf => if 0 < qb then .inf else .num 0
        | .negInf =>
            if 0 < qb then
              (if qb.den = 1 && qb.num % 2 = 1 then .negInf else .inf)
            else .num 0
  | a, .inf =>
      match a with
      | .nan => .nan
      | .num qa => if qa = 1 ∨ qa = -1 then .nan else if 1 < qAbs qa then .inf else .num 0
      | .inf => .inf
      | .negInf => .inf
  | a, .negInf =>
      match a with
      | .nan => .nan
      | .num qa => if qa = 1 ∨ qa = -1 then .nan else if 1 < qAbs qa then .num 0 else .inf
      | .inf => .num 0
      | .negInf => .num 0
  | _, .nan => .nan

/-- JS `Math.log`: `NaN` for negatives and `NaN`, `-∞` at `0`, `∞` at `∞`,
abstract (`P.logPos`) at a positive rational. -/
def jsLog (P : JsPrim) : JsNum → JsNum
  | .nan => .nan
  | .negInf => .nan
  | .inf => .inf
  | .num q => if q < 0 then .nan else if q = 0 then .negInf else P.logPos q

/-- `Math.abs v < eps`, as JS evaluates it: false whenever `v` is `NaN`
or infinite (`Math.abs` of those is `NaN` resp. `∞`). -/
def jsAbsLt (v : JsNum) (eps : ℚ) : Bool :=
  match v with
  | .num q => qAbs q < eps
  | _ => false

/-- Pad a digit string with leading zeros up to length `k`. -/
def padZeros (s : String) (k : ℕ) : String :=
  String.mk (List.replicate (k - s.length) '0') ++ s

/-- Rendering of a JS number by `Number.prototype.toString`: integers
print without a decimal point, finite decimals (denominator `2^a·5^b`)
print with the minimal number of fractional digits.  The model prints the
remaining rationals — which exist only as idealisations of rounded
doubles — as `num/den`; no such value is rendered in any theorem below. -/
def numToStr : JsNum → String
  | .nan => "NaN"
  | .inf => "Infinity"
  | .negInf => "-Infinity"
  | .num q =>
      if q.den = 1 then toString q.num
      else
        match (List.range 64).find? (fun k => (10 : ℕ) ^ k % q.den = 0) with
        | some k =>
            let m : ℕ := q.num.natAbs * ((10 : ℕ) ^ k / q.den)
            let sign := if q.num < 0 then "-" else ""
            sign ++ toString (m / 10 ^ k) ++ "." ++ padZeros (toString (m % 10 ^ k)) k
        | none => toString q.num ++ "/" ++ toString q.den

/-- Tags of the nine trig subclasses (`Sin` … `Atan`). -/
inductive TrigKind where
  | sin | cos | tan | cot | sec | csc | asin | acos | atan
  deriving DecidableEq

/-- Operation string of a trig subclass (the `functionName` passed to the
`TrigonometricFunction` super-constructor). -/
def kindStr : TrigKind → String
  | .sin => "sin"
  | .cos => "cos"
  | .tan => "tan"
  | .cot => "cot"
  | .sec => "sec"
  | .csc => "csc"
  | .asin => "asin"
  | .acos => "acos"
  | .atan => "atan"

mutual
/-- Expression tree of the `Symbols` class family.  `sym` is a plain
`Symbols` (a variable), `const` a `Constant`, `expr` a generic
`SymbolicExpression`, `trig` one of the nine `TrigonometricFunction`
subclasses (operation `kindStr k`, single argument), and `integral` the
`Integral` subclass (operation `"integrate"`, args `[integrand, ivar]`,
plus the two nullable bound fields). -/
inductive Term where
  | sym (name : String)
  | const (value : JsNum)
  | expr (op : String) (args : TermList)
  | trig (k : TrigKind) (arg : Term)
  | integral (integrand ivar : Term) (lower upper : OptTerm)
  deriving DecidableEq
/-- A list of operand terms (the `args` array). -/
inductive TermList where
  | nil
  | cons (t : Term) (ts : TermList)
  deriving DecidableEq
/-- A nullable term (the `Symbols | null` bound fields of `Integral`). -/
inductive OptTerm where
  | noneT
  | someT (t : Term)
  deriving DecidableEq
end

mutual
/-- `toString` of the class family.  Binary arithmetic operations print
parenthesised infix; everything else prints `op(arg, …)`; trig subclasses
override to `op(arg)`; `Integral` overrides to the `∫` forms. -/
def termStr : Term → String
  | .sym n => n
  | .const v => numToStr v
  | .expr op args =>
      if op = "+" ∨ op = "-" ∨ op = "*" ∨ op = "/" then
        "(" ++ termStrAt args 0 ++ " " ++ op ++ " " ++ termStrAt args 1 ++ ")"
      else if op = "^" then
        "(" ++ termStrAt args 0 ++ "^" ++ termStrAt args 1 ++ ")"
      else
        op ++ "(" ++ termStrJoin args ++ ")"
  | .trig k a => kindStr k ++ "(" ++ termStr a ++ ")"
  | .integral i v lo hi =>
      match lo, hi with
      | .someT l, .someT u =>
          "∫[" ++ termStr l ++ " to " ++ termStr u ++ "] (" ++ termStr i ++ ") d" ++ termStr v
      | _, _ => "∫(" ++ termStr i ++ ") d" ++ termStr v
/-- Render `args[idx]` inside a template literal; a missing element is
JavaScript's `undefined`, which interpolates as `"undefined"`. -/
def termStrAt : TermList → ℕ → String
  | .nil, _ => "undefined"
  | .cons t _, 0 => termStr t
  | .cons _ ts, n + 1 => termStrAt ts n
/-- `args.join(', ')`. -/
def termStrJoin : TermList → String
  | .nil => ""
  | .cons t .nil => termStr t
  | .cons t ts => termStr t ++ ", " ++ termStrJoin ts
end

/-- The `name` field: set for variables, `value.toString()` for constants,
and the empty string for every `SymbolicExpression` (whose constructor
calls `super('')`). -/
def termName : Term → String
  | .sym n => n
  | .const v => numToStr v
  | .expr _ _ => ""
  | .trig _ _ => ""
  | .integral _ _ _ _ => ""

/-- Whether an operation string is one of the five binary arithmetic
operators. -/
def arithOp (op : String) : Bool :=
  op = "+" ∨ op = "-" ∨ op = "*" ∨ op = "/" ∨ op = "^"

/-- Number of operands. -/
def tlLength : TermList → ℕ
  | .nil => 0
  | .cons _ ts => tlLength ts + 1

mutual
/-- Well-formedness, the arity contract of the spec's data model: an
arithmetic operator carries exactly two operands (the spec requires this
to be validated at construction with `ArityError`).  Other operation
strings are unconstrained. -/
def wf : Term → Bool
  | .sym _ => true
  | .const _ => true
  | .expr op args => (!arithOp op || tlLength args = 2) && wfList args
  | .trig _ a => wf a
  | .integral i v lo hi => wf i && wf v && wfOpt lo && wfOpt hi
/-- Well-formedness of an operand list. -/
def wfList : TermList → Bool
  | .nil => true
  | .cons t ts => wf t && wfList ts
/-- Well-formedness of a nullable bound. -/
def wfOpt : OptTerm → Bool
  | .noneT => true
  | .someT t => wf t
end

example : termStr (.expr "+" (.cons (.sym "x") (.cons (.const (.num 3)) .nil))) = "(x + 3)" := rfl
example : termStr (.expr "^" (.cons (.sym "y") (.cons (.const (.num 2)) .nil))) = "(y^2)" := rfl
example : termStr (.trig .sin (.sym "x")) = "sin(x)" := rfl
example : termStr (.expr "sin" (.cons (.sym "x") .nil)) = "sin(x)" := rfl
example : termStr (.expr "pi" .nil) = "pi()" := rfl
example : numToStr (.num (Rat.divInt 1 2)) = "0.5" := rfl
example : numToStr (.num (-3)) = "-3" := rfl

/-- Failures of the engine.  `unknownOperation`, `unsupportedDifferentiation`
and `cannotDifferentiate` are the `throw new Error(...)` sites of
`differentiate`; `typeError` models calling a missing method or
dereferencing `undefined`; `outOfFuel` is the model's recursion bound for
`integrate` (unbounded recursion in the source). -/
inductive Err where
  | unknownOperation (op : String)
  | unsupportedDifferentiation
  | cannotDifferentiate
  | typeError
  | outOfFuel
  deriving DecidableEq

/-- Errors that `differentiate` itself throws. -/
def Err.isDiffError : Err → Bool
  | .unknownOperation _ => true
  | .unsupportedDifferentiation => true
  | .cannotDifferentiate => true
  | _ => false

/-- `Simplifier.isConstant(expr, value)`: `expr instanceof Constant &&
parseFloat(expr.name) === value` (the parse round-trips to the stored
value; a `NaN`/`Infinity` constant compares unequal to every rational). -/
def isConstant (t : Term) (x : ℚ) : Bool :=
  match t with
  | .const (.num v) => v = x
  | _ => false

/-- `Simplifier.simplifyAddition`.  Rules in source order: `0+x→x`,
`x+0→x`, `x+x→2*x` by canonical-text equality, literal folding, else the
node is rebuilt unchanged (with its full operand list).  Fewer than two
operands under `+` dereference `undefined` in the source (`TypeError`). -/
def simplifyAddition (args : TermList) : Except Err Term :=
  match args with
  | .cons a (.cons b _) =>
      if isConstant a 0 then .ok b
      else if isConstant b 0 then .ok a
      else if termStr a = termStr b then
        .ok (.expr "*" (.cons (.const (.num 2)) (.cons a .nil)))
      else
        match a, b with
        | .const va, .const vb => .ok (.const (jsAdd va vb))
        | _, _ => .ok (.expr "+" args)
  | _ => .error .typeError

/-- `Simplifier.simplifySubtraction`: `x-0→x`, `x-x→0` by text equality,
literal folding, else unchanged. -/
def simplifySubtraction (args : TermList) : Except Err Term :=
  match args with
  | .cons a (.cons b _) =>
      if isConstant b 0 then .ok a
      else if termStr a = termStr b then .ok (.const (.num 0))
      else
        match a, b with
        | .const va, .const vb => .ok (.const (jsSub va vb))
        | _, _ => .ok (.expr "-" args)
  | _ => .error .typeError

/-- `Simplifier.simplifyMultiplication`: `0*x→0`, `x*0→0`, `1*x→x`,
`x*1→x`, `x*x→x^2` by text equality, literal folding, then the
literal-to-front swap (only when the right operand is a literal and the
left is not), else unchanged. -/
def simplifyMultiplication (args : TermList) : Except Err Term :=
  match args with
  | .cons a (.cons b _) =>
      if isConstant a 0 || isConstant b 0 then .ok (.const (.num 0))
      else if isConstant a 1 then .ok b
      else if isConstant b 1 then .ok a
      else if termStr a = termStr b then
        .ok (.expr "^" (.cons a (.cons (.const (.num 2)) .nil)))
      else
        match a, b with
        | .const va, .const vb => .ok (.const (jsMul va vb))
        | _, .const vb =>
            .ok (.expr "*" (.cons (.const vb) (.cons a .nil)))
        | _, _ => .ok (.expr "*" args)
  | _ => .error .typeError

/-- `Simplifier.simplifyDivision`: `x/1→x`, `x/x→1` by text equality,
`0/x→0`, literal folding (no zero-denominator guard: the JS fold yields
`±Infinity` or `NaN`), else unchanged. -/
def simplifyDivision (args : TermList) : Except Err Term :=
  match args with
  | .cons a (.cons b _) =>
      if isConstant b 1 then .ok a
      else if termStr a = termStr b then .ok (.const (.num 1))
      else if isConstant a 0 then .ok (.const (.num 0))
      else
        match a, b with
        | .const va, .const vb => .ok (.const (jsDiv va vb))
        | _, _ => .ok (.expr "/" args)
  | _ => .error .typeError

/-- `Simplifier.simplifyPower`: `x^0→1`, `x^1→x`, `0^x→0`, `1^x→1`,
literal folding by `Math.pow`, else unchanged. -/
def simplifyPower (P : JsPrim) (args : TermList) : Except Err Term :=
  match args with
  | .cons base (.cons e _) =>
      if isConstant e 0 then .ok (.const (.num 1))
      else if isConstant e 1 then .ok base
      else if isConstant base 0 then .ok (.const (.num 0))
      else if isConstant base 1 then .ok (.const (.num 1))
      else
        match base, e with
        | .const vb, .const ve => .ok (.const (jsPow P vb ve))
        | _, _ => .ok (.expr "^" args)
  | _ => .error .typeError

/-- `Simplifier.simplifyOperation`, dispatching on the operation string of
the (always generic, freshly rebuilt) node; any other operation returns
the node unchanged. -/
def simplifyOperation (P : JsPrim) (op : String) (args : TermList) : Except Err Term :=
  if op = "+" then simplifyAddition args
  else if op = "-" then simplifySubtraction args
  else if op = "*" then simplifyMultiplication args
  else if op = "/" then simplifyDivision args
  else if op = "^" then simplifyPower P args
  else .ok (.expr op args)

mutual
/-- `Simplifier.applyAllRules`: leaves are returned as-is; every
`SymbolicExpression` (including trig subclasses and `Integral`) has its
operands simplified recursively, is rebuilt as a **generic**
`SymbolicExpression` over the same operation string — discarding subclass
identity and the bound fields of `Integral` — and then gets its
operation-specific rule applied. -/
def applyAllRules (P : JsPrim) : Term → Except Err Term
  | .sym n => .ok (.sym n)
  | .const v => .ok (.const v)
  | .expr op args => do
      let args' ← applyAllRulesList P args
      simplifyOperation P op args'
  | .trig k a => do
      let a' ← applyAllRules P a
      simplifyOperation P (kindStr k) (.cons a' .nil)
  | .integral i v _ _ => do
      let i' ← applyAllRules P i
      let v' ← applyAllRules P v
      simplifyOperation P "integrate" (.cons i' (.cons v' .nil))
/-- Recursive simplification of an operand list (`args.map(applyAllRules)`). -/
def applyAllRulesList (P : JsPrim) : TermList → Except Err TermList
  | .nil => .ok .nil
  | .cons t ts => do
      let t' ← applyAllRules P t
      let ts' ← applyAllRulesList P ts
      .ok (.cons t' ts')
end

/-- `Simplifier.simplify(expr, maxIterations)` (source default 10): run
`applyAllRules` passes; as soon as a pass's output serialises to the same
canonical text as its input, return the input of that pass; after
`maxIterations` text-changing passes, return the last result. -/
def simplify (P : JsPrim) : ℕ → Term → Except Err Term
  | 0, t => .ok t
  | n + 1, t => do
      let simplified ← applyAllRules P t
      if termStr simplified = termStr t then .ok t
      else simplify P n simplified

mutual
/-- The free function `differentiate(expr, variable)` of
`src/types/symbols.ts` (the copy in `src/index.ts` is identical).  Order
of the source's checks: reference identity with the variable (structural
equality here, see the header), plain-symbol name comparison, constants,
then the `SymbolicExpression` switch on the operation string — where a
trig subclass or `Integral` falls into the `default` branch and throws
`UnknownOperation`.  The product/quotient/power cases destructure the
first two operands. -/
def differentiate (P : JsPrim) (t x : Term) : Except Err Term :=
  if t = x then .ok (.const (.num 1))
  else
    match t with
    | .sym n => if n = termName x then .ok (.const (.num 1)) else .ok (.const (.num 0))
    | .const _ => .ok (.const (.num 0))
    | .trig k _ => .error (.unknownOperation (kindStr k))
    | .integral _ _ _ _ => .error (.unknownOperation "integrate")
    | .expr op args =>
        if op = "+" ∨ op = "-" then do
          let ds ← differentiateList P args x
          .ok (.expr op ds)
        else if op = "*" then
          match args with
          | .cons u (.cons v _) => do
              let du ← differentiate P u x
              let dv ← differentiate P v x
              .ok (.expr "+" (.cons (.expr "*" (.cons u (.cons dv .nil)))
                (.cons (.expr "*" (.cons v (.cons du .nil))) .nil)))
          | _ => .error .cannotDifferentiate
        else if op = "/" then
          match args with
          | .cons nu (.cons de _) => do
              let dNum ← differentiate P nu x
              let dDen ← differentiate P de x
              .ok (.expr "/" (.cons
                (.expr "-" (.cons (.expr "*" (.cons de (.cons dNum .nil)))
                  (.cons (.expr "*" (.cons nu (.cons dDen .nil))) .nil)))
                (.cons (.expr "^" (.cons de (.cons (.const (.num 2)) .nil))) .nil)))
          | _ => .error .cannotDifferentiate
        else if op = "^" then
          match args with
          | .cons base (.cons e _) =>
              match e with
              | .const n =>
                  .ok (.expr "*" (.cons (.const n)
                    (.cons (.expr "^" (.cons base (.cons (.const (jsSub n (.num 1))) .nil))) .nil)))
              | _ =>
                  match base with
                  | .const a => do
                      let du ← differentiate P e x
                      .ok (.expr "*" (.cons (.expr "^" args)
                        (.cons (.expr "*" (.cons (.const (jsLog P a)) (.cons du .nil))) .nil)))
                  | _ => .error .unsupportedDifferentiation
          | _ => .error .unsupportedDifferentiation
        else .error (.unknownOperation op)
/-- `expr.args.map(arg => differentiate(arg, variable))` in the sum and
difference rules. -/
def differentiateList (P : JsPrim) : TermList → Term → Except Err TermList
  | .nil, _ => .ok .nil
  | .cons t ts, x => do
      let d ← differentiate P t x
      let ds ← differentiateList P ts x
      .ok (.cons d ds)
end

/-- Derivative tree built by the `differentiate` override of each trig
subclass, given the argument `u` and the already-computed `u.diff(x)`
(`du`).  Shapes copied node-for-node from `src/types/trigonometry.ts`. -/
def trigDerivTree (k : TrigKind) (u du : Term) : Term :=
  match k with
  | .sin => .expr "*" (.cons (.trig .cos u) (.cons du .nil))
  | .cos => .expr "*" (.cons (.const (.num (-1)))
      (.cons (.expr "*" (.cons (.trig .sin u) (.cons du .nil))) .nil))
  | .tan => .expr "*" (.cons
      (.expr "/" (.cons (.const (.num 1))
        (.cons (.expr "^" (.cons (.trig .cos u) (.cons (.const (.num 2)) .nil))) .nil)))
      (.cons du .nil))
  | .cot => .expr "*" (.cons (.const (.num (-1)))
      (.cons (.expr "*" (.cons
        (.expr "/" (.cons (.const (.num 1))
          (.cons (.expr "^" (.cons (.trig .sin u) (.cons (.const (.num 2)) .nil))) .nil)))
        (.cons du .nil))) .nil))
  | .sec => .expr "*" (.cons
      (.expr "*" (.cons (.trig .sec u) (.cons (.trig .tan u) .nil)))
      (.cons du .nil))
  | .csc => .expr "*" (.cons (.const (.num (-1)))
      (.cons (.expr "*" (.cons
        (.expr "*" (.cons (.trig .csc u) (.cons (.trig .cot u) .nil)))
        (.cons du .nil))) .nil))
  | .asin => .expr "/" (.cons du
      (.cons (.expr "^" (.cons (.const (.num 1))
        (.cons (.expr "-" (.cons (.const (.num 1))
          (.cons (.expr "^" (.cons u (.cons (.const (.num 2)) .nil))) .nil))) .nil)))
       .nil))
  | .acos => .expr "*" (.cons (.const (.num (-1)))
      (.cons (.expr "/" (.cons du
        (.cons (.expr "^" (.cons (.const (.num 1))
          (.cons (.expr "-" (.cons (.const (.num 1))
            (.cons (.expr "^" (.cons u (.cons (.const (.num 2)) .nil))) .nil))) .nil)))
         .nil))) .nil))
  | .atan => .expr "/" (.cons du
      (.cons (.expr "/" (.cons (.const (.num 1))
        (.cons (.expr "+" (.cons (.const (.num 1))
          (.cons (.expr "^" (.cons u (.cons (.const (.num 2)) .nil))) .nil))) .nil)))
       .nil))

/-- The `.diff(variable)` method with its dynamic dispatch: on a trig
subclass it runs the subclass's `differentiate` override (which first
computes `this.argument.diff(variable)` — again dispatched — and then
builds the tree of `trigDerivTree`); on every other node `Symbols.diff`
forwards to the free function `differentiate`. -/
def diffMethod (P : JsPrim) : Term → Term → Except Err Term
  | .trig k a, x => do
      let du ← diffMethod P a x
      .ok (trigDerivTree k a du)
  | t, x => differentiate P t x

mutual
/-- `integrate(expr, variable, lower, upper)` of `src/index.ts`.  Source
order: both bounds present → opaque `Integral` wrapper; `Constant c` →
`c * variable`; any node whose `name` equals the variable's →
`0.5 * variable^2`; then the `SymbolicExpression` rules — linearity over
`+`, the constant-multiple rule for a binary product with a literal
operand, the power rule for `variable^n` with literal `n ≠ -1`, and the
unconditional by-parts heuristic for every other product (`u = args[0]`,
`dv = args[1]`, result `u*v − ∫(v·du)` with `v = ∫dv`, `du =
differentiate(u)`) — else an `Integral` wrapper carrying the original
bounds.  The source recursion is unguarded; the model spends one unit of
fuel per recursive call. -/
def integrate (P : JsPrim) : ℕ → Term → Term → OptTerm → OptTerm → Except Err Term
  | 0, _, _, _, _ => .error .outOfFuel
  | fuel + 1, t, x, lo, hi =>
    match lo, hi with
    | .someT l, .someT u => .ok (.integral t x (.someT l) (.someT u))
    | _, _ =>
      match t with
      | .const v => .ok (.expr "*" (.cons (.const v) (.cons x .nil)))
      | _ =>
        if termName t = termName x then
          .ok (.expr "*" (.cons (.const (.num (Rat.divInt 1 2)))
            (.cons (.expr "^" (.cons x (.cons (.const (.num 2)) .nil))) .nil)))
        else
          match t with
          | .expr op args =>
              if op = "+" then do
                let is ← integrateList P fuel args x
                .ok (.expr "+" is)
              else if op = "*" then
                match args with
                | .cons a (.cons b .nil) =>
                    match a, b with
                    | .const _, _ => do
                        let ib ← integrate P fuel b x .noneT .noneT
                        .ok (.expr "*" (.cons a (.cons ib .nil)))
                    | _, .const _ => do
                        let ia ← integrate P fuel a x .noneT .noneT
                        .ok (.expr "*" (.cons b (.cons ia .nil)))
                    | _, _ => do
                        let v ← integrate P fuel b x .noneT .noneT
                        let du ← differentiate P a x
                        let vdu ← integrate P fuel
                          (.expr "*" (.cons v (.cons du .nil))) x .noneT .noneT
                        .ok (.expr "-" (.cons (.expr "*" (.cons a (.cons v .nil)))
                          (.cons vdu .nil)))
                | .cons a (.cons b _) => do
                    let v ← integrate P fuel b x .noneT .noneT
                    let du ← differentiate P a x
                    let vdu ← integrate P fuel
                      (.expr "*" (.cons v (.cons du .nil))) x .noneT .noneT
                    .ok (.expr "-" (.cons (.expr "*" (.cons a (.cons v .nil)))
                      (.cons vdu .nil)))
                | _ => .error .typeError
              else if op = "^" then
                match args with
                | .cons b (.cons e _) =>
                    if termName b = termName x then
                      match e with
                      | .const n =>
                          if n ≠ JsNum.num (-1) then
                            .ok (.expr "*" (.cons
                              (.expr "^" (.cons x (.cons (.const (jsAdd n (.num 1))) .nil)))
                              (.cons (.const (jsDiv (.num 1) (jsAdd n (.num 1)))) .nil)))
                          else .ok (.integral t x lo hi)
                      | _ => .ok (.integral t x lo hi)
                    else .ok (.integral t x lo hi)
                | _ => .ok (.integral t x lo hi)
              else .ok (.integral t x lo hi)
          | _ => .ok (.integral t x lo hi)
/-- `args.map(term => integrate(term, variable))` in the linearity rule. -/
def integrateList (P : JsPrim) : ℕ → TermList → Term → Except Err TermList
  | _, .nil, _ => .ok .nil
  | 0, .cons _ _, _ => .error .outOfFuel
  | fuel + 1, .cons t ts, x => do
      let i ← integrate P fuel t x .noneT .noneT
      let is ← integrateList P fuel ts x
      .ok (.cons i is)
end

/-- `isPi(expr)`: a `SymbolicExpression` whose operation string is `'pi'`
(what the factory `pi()` builds: `new SymbolicExpression([], 'pi')`). -/
def isPi : Term → Bool
  | .expr "pi" _ => true
  | _ => false

/-- The symbolic π node built by `pi()`. -/
def piTerm : Term := .expr "pi" .nil

/-- `isCommonAngle(angle)` of `src/types/trigonometry.ts`.  Both the
`angle instanceof Constant` branch and the symbolic `pi()/denominator`
branch begin by calling `.getValue()` on a `Constant` — a method the
`Constant` class imported from `types/symbols.ts` does not define — so
both throw a `TypeError` before any table comparison runs (the
`COMMON_ANGLES` comparisons and the `[2,3,4,6]` denominator check that
follow the call are unreachable and therefore not reproduced here).
Every other input reaches the final `return null`. -/
def isCommonAngle : Term → Except Err (Option String)
  | .const _ => .error .typeError
  | .expr "/" (.cons (.expr "pi" _) (.cons (.const _) _)) => .error .typeError
  | _ => .ok none

/-- `getExactValue(func, angleStr)`: the `EXACT_VALUES` lookup (√2, √3
via the abstract `JsPrim` values; infinite entries are `Infinity`).
`none` models the `undefined`/`null` results for missing keys.  Note the
function is unreachable in the source: `isCommonAngle` can only throw or
return `null`, and `simplifyTrig` consults the table only on a non-null
angle. -/
def getExactValue (P : JsPrim) (func angleStr : String) : Option JsNum :=
  let pick : JsNum → JsNum → JsNum → JsNum → JsNum → JsNum → Option JsNum :=
    fun vsin vcos vtan vcot vsec vcsc =>
      if func = "sin" then some vsin
      else if func = "cos" then some vcos
      else if func = "tan" then some vtan
      else if func = "cot" then some vcot
      else if func = "sec" then some vsec
      else if func = "csc" then some vcsc
      else none
  if angleStr = "0" then pick (.num 0) (.num 1) (.num 0) .inf (.num 1) .inf
  else if angleStr = "π/6" then
    pick (.num (Rat.divInt 1 2)) (.num (qDiv P.sqrt3 2)) (.num (qDiv 1 P.sqrt3))
      (.num P.sqrt3) (.num (qDiv 2 P.sqrt3)) (.num 2)
  else if angleStr = "π/4" then
    pick (.num (qDiv P.sqrt2 2)) (.num (qDiv P.sqrt2 2)) (.num 1) (.num 1)
      (.num P.sqrt2) (.num P.sqrt2)
  else if angleStr = "π/3" then
    pick (.num (qDiv P.sqrt3 2)) (.num (Rat.divInt 1 2)) (.num P.sqrt3)
      (.num (qDiv 1 P.sqrt3)) (.num 2) (.num (qDiv 2 P.sqrt3))
  else if angleStr = "π/2" then pick (.num 1) (.num 0) .inf (.num 0) .inf (.num 1)
  else if angleStr = "π" then pick (.num 0) (.num (-1)) (.num 0) .inf (.num (-1)) .inf
  else if angleStr = "3π/2" then pick (.num (-1)) (.num 0) .inf (.num 0) .inf (.num (-1))
  else if angleStr = "2π" then pick (.num 0) (.num 1) (.num 0) .inf (.num 1) .inf
  else none

/-- `simplifySin(arg)`: `sin(-x) → -1·sin(x)` (the following
`sin(π - x)` branch in the source is dead, shadowed by the same `'-'`
guard); `sin(π + x) → -1·sin(x)`; otherwise rebuild `Sin(arg)`.  An
arithmetic argument with a missing operand dereferences `undefined`
(`TypeError` model, unreachable for well-formed terms). -/
def simplifySin (arg : Term) : Except Err Term :=
  match arg with
  | .expr "-" (.cons a _) =>
      .ok (.expr "*" (.cons (.const (.num (-1))) (.cons (.trig .sin a) .nil)))
  | .expr "-" .nil => .error .typeError
  | .expr "+" (.cons l rest) =>
      if isPi l then
        match rest with
        | .cons r _ =>
            .ok (.expr "*" (.cons (.const (.num (-1))) (.cons (.trig .sin r) .nil)))
        | .nil => .error .typeError
      else .ok (.trig .sin arg)
  | _ => .ok (.trig .sin arg)

/-- `simplifyCos(arg)`: `cos(-x) → cos(x)` (the `cos(π - x)` branch is
dead, shadowed by the same `'-'` guard); `cos(π + x) → -1·cos(x)`;
otherwise rebuild `Cos(arg)`. -/
def simplifyCos (arg : Term) : Except Err Term :=
  match arg with
  | .expr "-" (.cons a _) => .ok (.trig .cos a)
  | .expr "-" .nil => .error .typeError
  | .expr "+" (.cons l rest) =>
      if isPi l then
        match rest with
        | .cons r _ =>
            .ok (.expr "*" (.cons (.const (.num (-1))) (.cons (.trig .cos r) .nil)))
        | .nil => .error .typeError
      else .ok (.trig .cos arg)
  | _ => .ok (.trig .cos arg)

/-- `simplifyTrig(expr)`: for the six direct trig subclasses, look for a
common angle (which in fact throws on every constant or symbolic
`pi()/d` argument, see `isCommonAngle`) and substitute the tabulated
exact value when finite; otherwise fall back to the reflection identities
(`sin`/`cos`) or the ratio identities (`tan`/`cot`/`sec`/`csc`).  The
inverse trig subclasses and every non-trig node are returned unchanged. -/
def simplifyTrig (P : JsPrim) (t : Term) : Except Err Term :=
  match t with
  | .trig .sin arg => do
      let c ← isCommonAngle arg
      match c with
      | some s =>
          match getExactValue P "sin" s with
          | some (.num q) => .ok (.const (.num q))
          | _ => simplifySin arg
      | none => simplifySin arg
  | .trig .cos arg => do
      let c ← isCommonAngle arg
      match c with
      | some s =>
          match getExactValue P "cos" s with
          | some (.num q) => .ok (.const (.num q))
          | _ => simplifyCos arg
      | none => simplifyCos arg
  | .trig .tan arg => do
      let c ← isCommonAngle arg
      match c with
      | some s =>
          match getExactValue P "tan" s with
          | some (.num q) => .ok (.const (.num q))
          | _ => .ok (.expr "/" (.cons (.trig .sin arg) (.cons (.trig .cos arg) .nil)))
      | none => .ok (.expr "/" (.cons (.trig .sin arg) (.cons (.trig .cos arg) .nil)))
  | .trig .cot arg => do
      let c ← isCommonAngle arg
      match c with
      | some s =>
          match getExactValue P "cot" s with
          | some (.num q) => .ok (.const (.num q))
          | _ => .ok (.expr "/" (.cons (.trig .cos arg) (.cons (.trig .sin arg) .nil)))
      | none => .ok (.expr "/" (.cons (.trig .cos arg) (.cons (.trig .sin arg) .nil)))
  | .trig .sec arg => do
      let c ← isCommonAngle arg
      match c with
      | some s =>
          match getExactValue P "sec" s with
          | some (.num q) => .ok (.const (.num q))
          | _ => .ok (.expr "/" (.cons (.const (.num 1)) (.cons (.trig .cos arg) .nil)))
      | none => .ok (.expr "/" (.cons (.const (.num 1)) (.cons (.trig .cos arg) .nil)))
  | .trig .csc arg => do
      let c ← isCommonAngle arg
      match c with
      | some s =>
          match getExactValue P "csc" s with
          | some (.num q) => .ok (.const (.num q))
          | _ => .ok (.expr "/" (.cons (.const (.num 1)) (.cons (.trig .sin arg) .nil)))
      | none => .ok (.expr "/" (.cons (.const (.num 1)) (.cons (.trig .sin arg) .nil)))
  | _ => .ok t

/-- Whether every operand is a `Constant`
(`args.every(arg => arg instanceof Constant)`). -/
def allConstants : TermList → Bool
  | .nil => true
  | .cons (.const _) ts => allConstants ts
  | .cons _ _ => false

/-- Value of `numericArgs[idx]`; a missing index is `undefined`, which JS
arithmetic coerces to `NaN`. -/
def constValAt : TermList → ℕ → JsNum
  | .nil, _ => .nan
  | .cons (.const v) _, 0 => v
  | .cons _ _, 0 => .nan
  | .cons _ ts, n + 1 => constValAt ts n

/-- `TaylorSeries.simplifyNumericExpression`: fold a `SymbolicExpression`
whose operands are all literals, using `parseFloat` on the first two
operand names; division *declines to fold* when the denominator is within
`1e-10` of zero and returns the compound unchanged; unknown operations
(including the trig tags and `integrate`) return the node unchanged. -/
def simplifyNumericExpression (P : JsPrim) (t : Term) : Term :=
  match t with
  | .expr op args =>
      if allConstants args then
        if op = "+" then .const (jsAdd (constValAt args 0) (constValAt args 1))
        else if op = "-" then .const (jsSub (constValAt args 0) (constValAt args 1))
        else if op = "*" then .const (jsMul (constValAt args 0) (constValAt args 1))
        else if op = "/" then
          if jsAbsLt (constValAt args 1) (Rat.divInt 1 10000000000) then t
          else .const (jsDiv (constValAt args 0) (constValAt args 1))
        else if op = "^" then .const (jsPow P (constValAt args 0) (constValAt args 1))
        else t
      else t
  | _ => t

/-- Semantic reading of an expression tree as an exact rational function
of its variables: the standard interpretation of the five binary
arithmetic operators, with integer-literal exponents only.  This is an
analysis-side definition (not part of the source) used to compare
derivative trees semantically. -/
def evalQ (env : String → Option ℚ) : Term → Option ℚ
  | .sym n => env n
  | .const (.num q) => some q
  | .const _ => none
  | .expr "+" (.cons a (.cons b .nil)) => do
      let x ← evalQ env a
      let y ← evalQ env b
      some (qAdd x y)
  | .expr "-" (.cons a (.cons b .nil)) => do
      let x ← evalQ env a
      let y ← evalQ env b
      some (qSub x y)
  | .expr "*" (.cons a (.cons b .nil)) => do
      let x ← evalQ env a
      let y ← evalQ env b
      some (qMul x y)
  | .expr "/" (.cons a (.cons b .nil)) => do
      let x ← evalQ env a
      let y ← evalQ env b
      if y = 0 then none else some (qDiv x y)
  | .expr "^" (.cons a (.cons (.const (.num q)) .nil)) => do
      let x ← evalQ env a
      if q.den = 1 then
        if 0 ≤ q.num ∨ x ≠ 0 then some (qPowInt x q.num) else none
      else none
  | _ => none

/-- Modelled from the spec: the section 4.5 derivative-table entry
`atan' = u'/(1+u²)` as an expression tree — the derivative `du` divided
by `1 + u^2`.  The source's `Atan.differentiate` is compared against this
shape. -/
def specAtanDerivative (u du : Term) : Term :=
  .expr "/" (.cons du
    (.cons (.expr "+" (.cons (.const (.num 1))
      (.cons (.expr "^" (.cons u (.cons (.const (.num 2)) .nil))) .nil))) .nil))

/-- A concrete instantiation of the abstract `Math` primitives, used only
to state closed counterexamples and witnesses; none of their values is
ever reached by the evaluations below. -/
def P0 : JsPrim := ⟨3, 1, 1, fun _ _ => .nan, fun _ => .nan⟩

/-- Shorthand for a two-element operand list. -/
def tl2 (a b : Term) : TermList := .cons a (.cons b .nil)

/-- Shorthand for a binary compound. -/
def mk2 (op : String) (a b : Term) : Term := .expr op (tl2 a b)

/-- The adversarial input for the simplification-idempotence claim: a
chain of variables named `"2"`, `"4"`, …, `"512"` whose canonical texts
collide with literal texts, so that each pass unlocks exactly one further
rewrite.  Converging needs 11 text-changing passes — one more than the
default `maxIterations = 10`. -/
def c2Tower : Term :=
  let layer : Term → String → Term := fun inner v => mk2 "+" inner (.sym v)
  layer (layer (layer (layer (layer (layer (layer (layer
    (mk2 "+" (.sym "2") (.sym "2")) "4") "8") "16") "32") "64") "128") "256") "512"

/-- The by-parts input for the integration error claim:
`(x^x) * x`, a product of two non-literal operands whose `u`-operand
`x^x` is rejected by `differentiate`. -/
def c1ByPartsInput : Term := mk2 "*" (mk2 "^" (.sym "x") (.sym "x")) (.sym "x")

/-- Environment mapping the variable `x` to `1`, for semantic comparison
of derivative trees. -/
def envX : String → Option ℚ := fun s => if s = "x" then some 1 else none

/-- Classification of a `differentiate` result on a well-formed input:
either a well-formed term or one of differentiation's own errors. -/
def DiffRes (r : Except Err Term) : Prop :=
  match r with
  | .ok d => wf d = true
  | .error e => e.isDiffError = true

/-- Classification of a `differentiateList` result (the operand count is
preserved). -/
def DiffResL (n : ℕ) (r : Except Err TermList) : Prop :=
  match r with
  | .ok ds => wfList ds = true ∧ tlLength ds = n
  | .error e => e.isDiffError = true

/-- Classification of an `integrate` result on well-formed inputs: a
well-formed term, a propagated differentiation error, or the model's
fuel bound. -/
def IntRes (r : Except Err Term) : Prop :=
  match r with
  | .ok d => wf d = true
  | .error e => e.isDiffError = true ∨ e = .outOfFuel

/-- Classification of an `integrateList` result (the operand count is
preserved). -/
def IntResL (n : ℕ) (r : Except Err TermList) : Prop :=
  match r with
  | .ok ds => wfList ds = true ∧ tlLength ds = n
  | .error e => e.isDiffError = true ∨ e = .outOfFuel

/-- C6: `simplify` applied to `y.pow(2).add(y.mul(3)).add(y.mul(0))`
(default `maxIterations = 10`) eliminates the `y*0` summand, moves the
literal `3` to the front of the multiplication, and produces exactly the
canonical text `"((y^2) + (3 * y))"`. -/
theorem c6_simplify_example_text :
    simplify P0 10
      (mk2 "+" (mk2 "+" (mk2 "^" (.sym "y") (.const (.num 2)))
                        (mk2 "*" (.sym "y") (.const (.num 3))))
               (mk2 "*" (.sym "y") (.const (.num 0))))
      = .ok (mk2 "+" (mk2 "^" (.sym "y") (.const (.num 2)))
                     (mk2 "*" (.const (.num 3)) (.sym "y")))
    ∧ termStr (mk2 "+" (mk2 "^" (.sym "y") (.const (.num 2)))
                       (mk2 "*" (.const (.num 3)) (.sym "y")))
      = "((y^2) + (3 * y))" :=
  ⟨rfl, rfl⟩

/-- C7: integration returns unsimplified shapes — `∫1 dx` is the literal
product `1 * x` (not reduced to `x`) and `∫x² dx` is `(x^3) * (1/3)` with
the reciprocal as a literal factor; `integrate` never calls the
simplifier. -/
theorem c7_integrate_unsimplified_shapes (P : JsPrim) :
    integrate P 10 (.const (.num 1)) (.sym "x") .noneT .noneT
      = .ok (mk2 "*" (.const (.num 1)) (.sym "x"))
    ∧ integrate P 10 (mk2 "^" (.sym "x") (.const (.num 2))) (.sym "x") .noneT .noneT
      = .ok (mk2 "*" (mk2 "^" (.sym "x") (.const (.num 3)))
                     (.const (.num (Rat.divInt 1 3)))) :=
  ⟨rfl, rfl⟩

/-- C4: contrary to the claim, `simplifyTrig(sin(pi()/3))` and
`simplifyTrig(cos(pi()/2))` do not return literals — both throw a
`TypeError`, because `isCommonAngle` calls `denominator.getValue()` on a
`Constant` imported from `types/symbols.ts`, which defines no such
method.  (The `Constant` inside `index.ts` does define it, and the
repository README documents the literal results the claim states, so the
code, not the claim, is the slip.) -/
theorem c4_simplifyTrig_throws (P : JsPrim) :
    simplifyTrig P (.trig .sin (mk2 "/" piTerm (.const (.num 3)))) = .error .typeError
    ∧ simplifyTrig P (.trig .cos (mk2 "/" piTerm (.const (.num 2)))) = .error .typeError :=
  ⟨rfl, rfl⟩

/-- C1 counterexample: `integrate((x^x) * x, x)` raises — the by-parts
heuristic differentiates its `u`-operand `x^x`, and `differentiate`
rejects a power with neither operand literal; the error propagates out of
`integrate`, so integration is not error-free. -/
theorem c1_integrate_raises_counterexample :
    integrate P0 10 c1ByPartsInput (.sym "x") .noneT .noneT
      = .error .unsupportedDifferentiation := rfl

/-- C2 counterexample: simplification is not idempotent under
canonical-text equality.  `c2Tower` needs 11 text-changing passes; after
the 10-pass budget `simplify` returns a term with text `"(2 * 512)"`,
and simplifying that result once more folds it to text `"1024"`. -/
theorem c2_not_idempotent_counterexample :
    (simplify P0 10 c2Tower).map termStr = .ok "(2 * 512)"
    ∧ ((simplify P0 10 c2Tower).bind (fun r => simplify P0 10 r)).map termStr
      = .ok "1024"
    ∧ ("1024" : String) ≠ "(2 * 512)" :=
  ⟨rfl, rfl, by decide⟩

/-- C10 counterexample: for the claim's own example `sin(x)`, the first
simplification pass leaves the canonical text unchanged, so `simplify`
returns the *original* `Sin` instance (not the generic rebuild) — and the
`diff` method on that result succeeds with `cos(x) * 1` instead of
raising `UnknownOperation`. -/
theorem c10_simplify_sin_keeps_identity :
    simplify P0 10 (.trig .sin (.sym "x")) = .ok (.trig .sin (.sym "x"))
    ∧ diffMethod P0 (.trig .sin (.sym "x")) (.sym "x")
      = .ok (.expr "*" (.cons (.trig .cos (.sym "x")) (.cons (.const (.num 1)) .nil)))
    ∧ Term.trig .sin (.sym "x") ≠ Term.expr "sin" (.cons (.sym "x") .nil) :=
  ⟨rfl, rfl, by decide⟩

/-- C10 amended: `applyAllRules` does rebuild every trig node as a generic
compound carrying only the operation string (first conjunct), and both
the free `differentiate` and the `diff` method raise `UnknownOperation`
on such a generic trig-tagged node (second and third conjuncts); but the
loss of identity reaches the caller only when simplification changes the
canonical text somewhere, as for `sin(x) + 0` (fourth and fifth
conjuncts) — a bare trig node is returned unchanged, still
differentiable (see the counterexample). -/
theorem c10_identity_lost_on_rebuild (P : JsPrim) (k : TrigKind) (a : Term)
    (args : TermList) (name : String) :
    applyAllRules P (.trig k a)
      = Except.map (fun a2 => Term.expr (kindStr k) (.cons a2 .nil)) (applyAllRules P a)
    ∧ differentiate P (.expr (kindStr k) args) (.sym name)
      = .error (.unknownOperation (kindStr k))
    ∧ diffMethod P (.expr (kindStr k) args) (.sym name)
      = .error (.unknownOperation (kindStr k))
    ∧ simplify P 10 (mk2 "+" (.trig .sin (.sym "x")) (.const (.num 0)))
      = .ok (.expr "sin" (.cons (.sym "x") .nil))
    ∧ differentiate P (.expr "sin" (.cons (.sym "x") .nil)) (.sym "x")
      = .error (.unknownOperation "sin") := by
  have h2 : ∀ j : TrigKind,
      differentiate P (.expr (kindStr j) args) (.sym name)
        = .error (.unknownOperation (kindStr j)) := by
    intro j
    cases j <;>
      · rw [differentiate.eq_def]
        rw [if_neg (fun h => Term.noConfusion h)]
        rfl
  refine ⟨?_, h2 k, ?_, rfl, rfl⟩
  · cases k <;> cases h : applyAllRules P a <;>
      · simp only [applyAllRules]
        rw [h]
        rfl
  · rw [diffMethod.eq_def]
    exact h2 k

/-- C2 amended: idempotence does hold for every input whose `simplify`
output is a fixpoint of one bottom-up pass (in particular for every input
that converges within the 10-pass budget): re-running `simplify` on such
an output returns it unchanged, so the canonical texts agree.  It fails
only for inputs that exhaust the budget — see the counterexample. -/
theorem c2_idempotent_at_pass_fixpoint (P : JsPrim) (t r s : Term)
    (h1 : simplify P 10 t = .ok r) (h2 : applyAllRules P r = .ok s)
    (h3 : termStr s = termStr r) : simplify P 10 r = .ok r := by
  have hstep : simplify P 10 r
      = (do
          let s2 ← applyAllRules P r
          if termStr s2 = termStr r then Except.ok r else simplify P 9 s2) := rfl
  rw [hstep, h2]
  show (if termStr s = termStr r then Except.ok r else simplify P 9 s) = .ok r
  rw [if_pos h3]

/-- C2 witness: the variable `x` is already a pass fixpoint, and
re-simplifying `simplify`'s output returns it unchanged. -/
theorem c2_idempotent_witness :
    simplify P0 10 (.sym "x") = .ok (.sym "x")
    ∧ applyAllRules P0 (.sym "x") = .ok (.sym "x")
    ∧ termStr (.sym "x") = termStr (.sym "x")
    ∧ simplify P0 10 (.sym "x") = .ok (.sym "x") :=
  ⟨rfl, rfl, rfl,
    c2_idempotent_at_pass_fixpoint P0 (.sym "x") (.sym "x") (.sym "x") rfl rfl rfl⟩

/-- C3: the inverse-trig derivative overrides do not implement the spec's
section 4.5 table.  `Atan.differentiate` at `x` returns
`1 / (1 / (1 + x^2))` — the reciprocal misplaced — which evaluates to `2`
at `x = 1`, while the table's `u'/(1+u²)` evaluates to `1/2` there; and
`Asin.differentiate` returns `1 / (1^(1 - x^2))` — the base `1` where the
table has the square root `√(1−u²)`.  The direct trig table is correct:
`sin(x).diff(x)` is `cos(x) * 1` as the claim states. -/
theorem c3_inverse_trig_table_divergence :
    diffMethod P0 (.trig .atan (.sym "x")) (.sym "x")
      = .ok (trigDerivTree .atan (.sym "x") (.const (.num 1)))
    ∧ evalQ envX (trigDerivTree .atan (.sym "x") (.const (.num 1))) = some 2
    ∧ evalQ envX (specAtanDerivative (.sym "x") (.const (.num 1)))
      = some (Rat.divInt 1 2)
    ∧ diffMethod P0 (.trig .asin (.sym "x")) (.sym "x")
      = .ok (.expr "/" (.cons (.const (.num 1))
          (.cons (.expr "^" (.cons (.const (.num 1))
            (.cons (.expr "-" (.cons (.const (.num 1))
              (.cons (.expr "^" (.cons (.sym "x") (.cons (.const (.num 2)) .nil)))
               .nil))) .nil))) .nil)))
    ∧ diffMethod P0 (.trig .sin (.sym "x")) (.sym "x")
      = .ok (.expr "*" (.cons (.trig .cos (.sym "x")) (.cons (.const (.num 1)) .nil))) :=
  ⟨rfl, rfl, rfl, rfl, rfl⟩

/-- C5: the `^` case of `differentiate`.  A literal exponent `n` takes
precedence (even over a literal base) and yields `n * base^(n-1)` with
the exponent not differentiated; otherwise a literal base `a` yields
`a^exp * (ln(a) * d(exp))`, differentiating the exponent; otherwise the
`UnsupportedDifferentiation` failure is raised. -/
theorem c5_power_differentiation_cases (P : JsPrim) (name : String)
    (base u : Term) (n a : JsNum) :
    (differentiate P (mk2 "^" base (.const n)) (.sym name)
      = .ok (mk2 "*" (.const n) (mk2 "^" base (.const (jsSub n (.num 1))))))
    ∧ ((∀ q, u ≠ .const q) →
        differentiate P (mk2 "^" (.const a) u) (.sym name)
          = (differentiate P u (.sym name)).bind (fun du =>
              .ok (mk2 "*" (mk2 "^" (.const a) u)
                (mk2 "*" (.const (jsLog P a)) du))))
    ∧ ((∀ q, u ≠ .const q) → (∀ q, base ≠ .const q) →
        differentiate P (mk2 "^" base u) (.sym name)
          = .error .unsupportedDifferentiation) := by
  refine ⟨?_, ?_, ?_⟩
  · rw [differentiate.eq_def]
    rw [if_neg (fun h => Term.noConfusion h)]
    rfl
  · intro hu
    cases u <;>
      first
      | exact absurd rfl (hu _)
      | (rw [differentiate.eq_def]
         rw [if_neg (fun h => Term.noConfusion h)]
         rfl)
  · intro hu hb
    cases u <;>
      first
      | exact absurd rfl (hu _)
      | (cases base <;>
          first
          | exact absurd rfl (hb _)
          | (rw [differentiate.eq_def]
             rw [if_neg (fun h => Term.noConfusion h)]
             rfl))

/-- C5 witness: the three cases at concrete inputs — `z^3` (power rule,
also with a literal base `5^3`), `5^y` (exponential rule), and `z^y`
(failure). -/
theorem c5_power_differentiation_witness :
    differentiate P0 (mk2 "^" (.sym "z") (.const (.num 3))) (.sym "x")
      = .ok (mk2 "*" (.const (.num 3)) (mk2 "^" (.sym "z") (.const (.num 2))))
    ∧ differentiate P0 (mk2 "^" (.const (.num 5)) (.const (.num 3))) (.sym "x")
      = .ok (mk2 "*" (.const (.num 3)) (mk2 "^" (.const (.num 5)) (.const (.num 2))))
    ∧ differentiate P0 (mk2 "^" (.const (.num 5)) (.sym "y")) (.sym "x")
      = .ok (mk2 "*" (mk2 "^" (.const (.num 5)) (.sym "y"))
          (mk2 "*" (.const (jsLog P0 (.num 5))) (.const (.num 0))))
    ∧ differentiate P0 (mk2 "^" (.sym "z") (.sym "y")) (.sym "x")
      = .error .unsupportedDifferentiation := by
  have h1 := (c5_power_differentiation_cases P0 "x" (.sym "z") (.sym "y")
    (.num 3) (.num 5)).1
  have h2 := (c5_power_differentiation_cases P0 "x" (.const (.num 5)) (.sym "y")
    (.num 3) (.num 5)).1
  have h3 := (c5_power_differentiation_cases P0 "x" (.sym "z") (.sym "y")
    (.num 3) (.num 5)).2.1 (fun q h => Term.noConfusion h)
  have h4 := (c5_power_differentiation_cases P0 "x" (.sym "z") (.sym "y")
    (.num 3) (.num 5)).2.2 (fun q h => Term.noConfusion h) (fun q h => Term.noConfusion h)
  refine ⟨?_, ?_, ?_, h4⟩
  · rw [h1]; rfl
  · rw [h2]; rfl
  · rw [h3]; rfl

/-- C8 counterexample: the two literal folds disagree at a zero
denominator.  On `1 / 0`, the Taylor driver's fold
(`simplifyNumericExpression`) declines — `|0| < 1e-10` — and returns the
compound unchanged, while the simplification engine's division rule folds
it to the literal `Infinity`. -/
theorem c8_zero_denominator_divergence :
    simplifyNumericExpression P0 (mk2 "/" (.const (.num 1)) (.const (.num 0)))
      = mk2 "/" (.const (.num 1)) (.const (.num 0))
    ∧ simplifyOperation P0 "/" (tl2 (.const (.num 1)) (.const (.num 0)))
      = .ok (.const .inf)
    ∧ (Except.ok (mk2 "/" (.const (.num 1)) (.const (.num 0))) : Except Err Term)
      ≠ .ok (.const .inf) := by
  refine ⟨rfl, rfl, ?_⟩
  intro h
  simp [mk2, tl2] at h

/-- C8 amended: for both-literal binary compounds the two folds agree
whenever the simplifier's pre-fold algebraic rules cannot fire — finite
operand values, distinct canonical texts, neither operand `0` or `1` —
and, for division, a denominator of magnitude at least `1e-10`; with a
denominator closer to zero (including zero itself) they disagree, the
Taylor fold returning the compound unchanged (see the counterexample). -/
theorem c8_folds_agree_generically (P : JsPrim) (a b : ℚ)
    (hs : numToStr (.num a) ≠ numToStr (.num b))
    (ha0 : ¬a = 0) (ha1 : ¬a = 1) (hb0 : ¬b = 0) (hb1 : ¬b = 1) :
    (Except.ok (simplifyNumericExpression P (mk2 "+" (.const (.num a)) (.const (.num b))))
      = simplifyOperation P "+" (tl2 (.const (.num a)) (.const (.num b))))
    ∧ (Except.ok (simplifyNumericExpression P (mk2 "-" (.const (.num a)) (.const (.num b))))
      = simplifyOperation P "-" (tl2 (.const (.num a)) (.const (.num b))))
    ∧ (Except.ok (simplifyNumericExpression P (mk2 "*" (.const (.num a)) (.const (.num b))))
      = simplifyOperation P "*" (tl2 (.const (.num a)) (.const (.num b))))
    ∧ (Except.ok (simplifyNumericExpression P (mk2 "^" (.const (.num a)) (.const (.num b))))
      = simplifyOperation P "^" (tl2 (.const (.num a)) (.const (.num b))))
    ∧ (Rat.divInt 1 10000000000 ≤ qAbs b →
        Except.ok (simplifyNumericExpression P (mk2 "/" (.const (.num a)) (.const (.num b))))
          = simplifyOperation P "/" (tl2 (.const (.num a)) (.const (.num b)))) := by
  have cab : TermList.cons (Term.const (.num a)) (.cons (.const (.num b)) .nil)
      = tl2 (.const (.num a)) (.const (.num b)) := rfl
  refine ⟨?_, ?_, ?_, ?_, ?_⟩
  · show Except.ok (simplifyNumericExpression P (mk2 "+" (.const (.num a)) (.const (.num b))))
      = simplifyAddition (.cons (.const (.num a)) (.cons (.const (.num b)) .nil))
    rw [simplifyAddition]
    simp only [isConstant, decide_eq_true_eq, termStr]
    rw [if_neg ha0, if_neg hb0, if_neg hs]
    rfl
  · show Except.ok (simplifyNumericExpression P (mk2 "-" (.const (.num a)) (.const (.num b))))
      = simplifySubtraction (.cons (.const (.num a)) (.cons (.const (.num b)) .nil))
    rw [simplifySubtraction]
    simp only [isConstant, decide_eq_true_eq, termStr]
    rw [if_neg hb0, if_neg hs]
    rfl
  · show Except.ok (simplifyNumericExpression P (mk2 "*" (.const (.num a)) (.const (.num b))))
      = simplifyMultiplication (.cons (.const (.num a)) (.cons (.const (.num b)) .nil))
    rw [simplifyMultiplication]
    simp only [isConstant, decide_eq_true_eq, termStr, Bool.or_eq_true]
    rw [if_neg (by simp [ha0, hb0]), if_neg ha1, if_neg hb1, if_neg hs]
    rfl
  · show Except.ok (simplifyNumericExpression P (mk2 "^" (.const (.num a)) (.const (.num b))))
      = simplifyPower P (.cons (.const (.num a)) (.cons (.const (.num b)) .nil))
    rw [simplifyPower]
    simp only [isConstant, decide_eq_true_eq, termStr]
    rw [if_neg hb0, if_neg hb1, if_neg ha0, if_neg ha1]
    rfl
  · intro hle
    have hguard : jsAbsLt (.num b) (Rat.divInt 1 10000000000) = false := by
      simp only [jsAbsLt, decide_eq_false_iff_not, not_lt]
      exact hle
    show Except.ok (simplifyNumericExpression P (mk2 "/" (.const (.num a)) (.const (.num b))))
      = simplifyDivision (.cons (.const (.num a)) (.cons (.const (.num b)) .nil))
    rw [simplifyDivision]
    simp only [isConstant, decide_eq_true_eq, termStr]
    rw [if_neg hb1, if_neg hs, if_neg ha0]
    show Except.ok (if jsAbsLt (.num b) (Rat.divInt 1 10000000000) = true
        then mk2 "/" (.const (.num a)) (.const (.num b))
        else Term.const (jsDiv (.num a) (.num b)))
      = .ok (.const (jsDiv (.num a) (.num b)))
    rw [hguard]
    rfl

/-- C8 witness: at `6 / 2` the side conditions hold and the two folds
agree (both produce the literal `3`). -/
theorem c8_folds_agree_witness :
    numToStr (JsNum.num 6) ≠ numToStr (JsNum.num 2)
    ∧ ¬(6 : ℚ) = 0 ∧ ¬(6 : ℚ) = 1 ∧ ¬(2 : ℚ) = 0 ∧ ¬(2 : ℚ) = 1
    ∧ Rat.divInt 1 10000000000 ≤ qAbs 2
    ∧ Except.ok (simplifyNumericExpression P0 (mk2 "/" (.const (.num 6)) (.const (.num 2))))
        = simplifyOperation P0 "/" (tl2 (.const (.num 6)) (.const (.num 2))) :=
  ⟨by decide, by decide, by decide, by decide, by decide, by decide,
    (c8_folds_agree_generically P0 6 2 (by decide) (by decide) (by decide)
      (by decide) (by decide)).2.2.2.2 (by decide)⟩

/-- Applying the addition rule to two well-formed operands always
succeeds with a well-formed result. -/
theorem simplifyAddition_wf (a b : Term) (ha : wf a = true) (hb : wf b = true) :
    ∃ s, simplifyAddition (.cons a (.cons b .nil)) = .ok s ∧ wf s = true := by
  cases a <;> cases b <;>
    · simp only [simplifyAddition.eq_def]
      repeat' split
      all_goals exact ⟨_, rfl, by simp_all [wf, wfList, arithOp, tlLength]⟩

/-- Applying the subtraction rule to two well-formed operands always
succeeds with a well-formed result. -/
theorem simplifySubtraction_wf (a b : Term) (ha : wf a = true) (hb : wf b = true) :
    ∃ s, simplifySubtraction (.cons a (.cons b .nil)) = .ok s ∧ wf s = true := by
  cases a <;> cases b <;>
    · simp only [simplifySubtraction.eq_def]
      repeat' split
      all_goals exact ⟨_, rfl, by simp_all [wf, wfList, arithOp, tlLength]⟩

/-- Applying the multiplication rule to two well-formed operands always
succeeds with a well-formed result. -/
theorem simplifyMultiplication_wf (a b : Term) (ha : wf a = true) (hb : wf b = true) :
    ∃ s, simplifyMultiplication (.cons a (.cons b .nil)) = .ok s ∧ wf s = true := by
  cases a <;> cases b <;>
    · simp only [simplifyMultiplication.eq_def]
      repeat' split
      all_goals exact ⟨_, rfl, by simp_all [wf, wfList, arithOp, tlLength]⟩

/-- Applying the division rule to two well-formed operands always
succeeds with a well-formed result. -/
theorem simplifyDivision_wf (a b : Term) (ha : wf a = true) (hb : wf b = true) :
    ∃ s, simplifyDivision (.cons a (.cons b .nil)) = .ok s ∧ wf s = true := by
  cases a <;> cases b <;>
    · simp only [simplifyDivision.eq_def]
      repeat' split
      all_goals exact ⟨_, rfl, by simp_all [wf, wfList, arithOp, tlLength]⟩

/-- Applying the power rule to two well-formed operands always succeeds
with a well-formed result. -/
theorem simplifyPower_wf (P : JsPrim) (a b : Term) (ha : wf a = true) (hb : wf b = true) :
    ∃ s, simplifyPower P (.cons a (.cons b .nil)) = .ok s ∧ wf s = true := by
  cases a <;> cases b <;>
    · simp only [simplifyPower.eq_def]
      repeat' split
      all_goals exact ⟨_, rfl, by simp_all [wf, wfList, arithOp, tlLength]⟩

/-- An operand list of length two is a two-element list. -/
theorem tlLength_eq_two (args : TermList) (h : tlLength args = 2) :
    ∃ a b, args = .cons a (.cons b .nil) := by
  match args with
  | .nil => simp [tlLength] at h
  | .cons a .nil => simp [tlLength] at h
  | .cons a (.cons b .nil) => exact ⟨a, b, rfl⟩
  | .cons a (.cons b (.cons c ts)) => simp [tlLength] at h

/-- Dispatching a per-operator rule on well-formed operands (two of them
under an arithmetic operator) always succeeds with a well-formed
result. -/
theorem simplifyOperation_wf (P : JsPrim) (op : String) (args : TermList)
    (hlen : arithOp op = true → tlLength args = 2) (hargs : wfList args = true) :
    ∃ s, simplifyOperation P op args = .ok s ∧ wf s = true := by
  have hsplit : ∀ a b, args = TermList.cons a (.cons b .nil) →
      wf a = true ∧ wf b = true := by
    intro a b he
    rw [he] at hargs
    simp only [wfList, Bool.and_eq_true] at hargs
    exact ⟨hargs.1, hargs.2.1⟩
  by_cases h1 : op = "+"
  · obtain ⟨a, b, he⟩ := tlLength_eq_two args (hlen (by rw [h1]; rfl))
    obtain ⟨hwa, hwb⟩ := hsplit a b he
    obtain ⟨s, hs, hws⟩ := simplifyAddition_wf a b hwa hwb
    exact ⟨s, by rw [he]; simp only [simplifyOperation, h1, if_pos]; exact hs, hws⟩
  by_cases h2 : op = "-"
  · obtain ⟨a, b, he⟩ := tlLength_eq_two args (hlen (by rw [h2]; rfl))
    obtain ⟨hwa, hwb⟩ := hsplit a b he
    obtain ⟨s, hs, hws⟩ := simplifySubtraction_wf a b hwa hwb
    exact ⟨s, by rw [he]; simp only [simplifyOperation, h1, h2, if_neg, if_pos]; exact hs, hws⟩
  by_cases h3 : op = "*"
  · obtain ⟨a, b, he⟩ := tlLength_eq_two args (hlen (by rw [h3]; rfl))
    obtain ⟨hwa, hwb⟩ := hsplit a b he
    obtain ⟨s, hs, hws⟩ := simplifyMultiplication_wf a b hwa hwb
    exact ⟨s, by rw [he]; simp only [simplifyOperation, h1, h2, h3, if_neg, if_pos]; exact hs, hws⟩
  by_cases h4 : op = "/"
  · obtain ⟨a, b, he⟩ := tlLength_eq_two args (hlen (by rw [h4]; rfl))
    obtain ⟨hwa, hwb⟩ := hsplit a b he
    obtain ⟨s, hs, hws⟩ := simplifyDivision_wf a b hwa hwb
    exact ⟨s, by rw [he]; simp only [simplifyOperation, h1, h2, h3, h4, if_neg, if_pos]; exact hs, hws⟩
  by_cases h5 : op = "^"
  · obtain ⟨a, b, he⟩ := tlLength_eq_two args (hlen (by rw [h5]; rfl))
    obtain ⟨hwa, hwb⟩ := hsplit a b he
    obtain ⟨s, hs, hws⟩ := simplifyPower_wf P a b hwa hwb
    exact ⟨s, by rw [he]; simp only [simplifyOperation, h1, h2, h3, h4, h5, if_neg, if_pos]; exact hs, hws⟩
  refine ⟨.expr op args, ?_, ?_⟩
  · simp only [simplifyOperation, h1, h2, h3, h4, h5, if_neg, if_false]
  · have : arithOp op = false := by
      simp only [arithOp, h1, h2, h3, h4, h5]
      decide
    simp [wf, this, hargs]

mutual
/-- One bottom-up pass over a well-formed term always succeeds and
preserves well-formedness. -/
theorem applyAllRules_wf (P : JsPrim) (t : Term) (h : wf t = true) :
    ∃ s, applyAllRules P t = .ok s ∧ wf s = true := by
  match t with
  | .sym n => exact ⟨.sym n, rfl, rfl⟩
  | .const v => exact ⟨.const v, rfl, rfl⟩
  | .expr op args =>
      simp only [wf, Bool.and_eq_true, Bool.or_eq_true] at h
      obtain ⟨args2, hargs, hw2, hlen2⟩ := applyAllRulesList_wf P args h.2
      have hlen : arithOp op = true → tlLength args2 = 2 := by
        intro hop
        rw [hlen2]
        rcases h.1 with hno | htwo
        · simp [hop] at hno
        · simpa using htwo
      obtain ⟨s, hs, hws⟩ := simplifyOperation_wf P op args2 hlen hw2
      refine ⟨s, ?_, hws⟩
      simp only [applyAllRules]
      rw [hargs]
      exact hs
  | .trig k a =>
      have hwa : wf a = true := h
      obtain ⟨a2, ha2, hwa2⟩ := applyAllRules_wf P a hwa
      have hlen : arithOp (kindStr k) = true → tlLength (TermList.cons a2 .nil) = 2 := by
        intro hop
        exact absurd hop (by cases k <;> decide)
      obtain ⟨s, hs, hws⟩ := simplifyOperation_wf P (kindStr k) (.cons a2 .nil) hlen
        (by simp [wfList, hwa2])
      refine ⟨s, ?_, hws⟩
      simp only [applyAllRules]
      rw [ha2]
      exact hs
  | .integral i v lo hi =>
      simp only [wf, Bool.and_eq_true] at h
      obtain ⟨i2, hi2, hwi2⟩ := applyAllRules_wf P i h.1.1.1
      obtain ⟨v2, hv2, hwv2⟩ := applyAllRules_wf P v h.1.1.2
      have hlen : arithOp "integrate" = true → tlLength (TermList.cons i2 (.cons v2 .nil)) = 2 := by
        intro hop
        exact absurd hop (by decide)
      obtain ⟨s, hs, hws⟩ := simplifyOperation_wf P "integrate" (.cons i2 (.cons v2 .nil)) hlen
        (by simp [wfList, hwi2, hwv2])
      refine ⟨s, ?_, hws⟩
      simp only [applyAllRules]
      rw [hi2, hv2]
      exact hs
/-- Pass over a well-formed operand list: succeeds, preserves
well-formedness and the operand count. -/
theorem applyAllRulesList_wf (P : JsPrim) (ts : TermList) (h : wfList ts = true) :
    ∃ ts2, applyAllRulesList P ts = .ok ts2 ∧ wfList ts2 = true
      ∧ tlLength ts2 = tlLength ts := by
  match ts with
  | .nil => exact ⟨.nil, rfl, rfl, rfl⟩
  | .cons t ts =>
      simp only [wfList, Bool.and_eq_true] at h
      obtain ⟨t2, ht2, hwt2⟩ := applyAllRules_wf P t h.1
      obtain ⟨ts2, hts2, hwts2, hlen⟩ := applyAllRulesList_wf P ts h.2
      refine ⟨.cons t2 ts2, ?_, ?_, ?_⟩
      · simp only [applyAllRulesList]
        rw [ht2, hts2]
        rfl
      · simp [wfList, hwt2, hwts2]
      · simp [tlLength, hlen]
end

/-- The bounded rewriting loop on a well-formed term always succeeds
(with a well-formed result), for every iteration budget. -/
theorem simplify_wf (P : JsPrim) : ∀ (k : ℕ) (t : Term), wf t = true →
    ∃ r, simplify P k t = .ok r ∧ wf r = true := by
  intro k
  induction k with
  | zero => exact fun t h => ⟨t, rfl, h⟩
  | succ n ih =>
      intro t h
      obtain ⟨s, hs, hws⟩ := applyAllRules_wf P t h
      by_cases heq : termStr s = termStr t
      · refine ⟨t, ?_, h⟩
        simp only [simplify]
        rw [hs]
        show (if termStr s = termStr t then Except.ok t else simplify P n s) = .ok t
        rw [if_pos heq]
      · obtain ⟨r, hr, hwr⟩ := ih s hws
        refine ⟨r, ?_, hwr⟩
        simp only [simplify]
        rw [hs]
        show (if termStr s = termStr t then Except.ok t else simplify P n s) = .ok r
        rw [if_neg heq]
        exact hr

/-- C9: the contract of `simplify(term, maxIterations)` on the data
model's (well-formed) terms: it always terminates without error with a
well-formed result for any budget; a zero budget returns the input
unchanged (so at most `maxIterations` passes ever run); when a pass
leaves the canonical text unchanged the loop stops and returns the pass's
input; when a pass changes the text the loop continues with the pass's
output and one unit of budget consumed — so a non-convergent input
returns the last pass's result rather than failing. -/
theorem c9_simplify_terminates (P : JsPrim) (t : Term) (k : ℕ) (h : wf t = true) :
    (∃ r, simplify P k t = .ok r ∧ wf r = true)
    ∧ simplify P 0 t = .ok t
    ∧ (∀ s, applyAllRules P t = .ok s → termStr s = termStr t →
        simplify P (k + 1) t = .ok t)
    ∧ (∀ s, applyAllRules P t = .ok s → termStr s ≠ termStr t →
        simplify P (k + 1) t = simplify P k s) := by
  refine ⟨simplify_wf P k t h, rfl, ?_, ?_⟩
  · intro s hs heq
    simp only [simplify]
    rw [hs]
    show (if termStr s = termStr t then Except.ok t else simplify P k s) = .ok t
    rw [if_pos heq]
  · intro s hs hne
    simp only [simplify]
    rw [hs]
    show (if termStr s = termStr t then Except.ok t else simplify P k s) = simplify P k s
    rw [if_neg hne]

/-- C9 witness: the loop contract instantiated at `x + 0` with the
default budget of 10 passes. -/
theorem c9_simplify_terminates_witness :
    wf (mk2 "+" (.sym "x") (.const (.num 0))) = true
    ∧ (∃ r, simplify P0 10 (mk2 "+" (.sym "x") (.const (.num 0))) = .ok r ∧ wf r = true)
    ∧ simplify P0 10 (mk2 "+" (.sym "x") (.const (.num 0))) = .ok (.sym "x") :=
  ⟨by decide, (c9_simplify_terminates P0 (mk2 "+" (.sym "x") (.const (.num 0))) 10
    (by decide)).1, rfl⟩

/-- Classification transport through a monadic bind whose continuation
wraps a well-formedness-preserving tree builder. -/
theorem diffres_bind_wf (r : Except Err Term) (f : Term → Term) (hr : DiffRes r)
    (hf : ∀ d, wf d = true → wf (f d) = true) :
    DiffRes (Except.bind r (fun d => Except.ok (f d))) := by
  cases r with
  | ok d => exact hf d hr
  | error e => exact hr

mutual
/-- On a well-formed input, `differentiate` either returns a well-formed
term or raises one of its own three errors — never a `TypeError` and
never the model's fuel bound. -/
theorem differentiate_classified (P : JsPrim) (t x : Term) (h : wf t = true) :
    DiffRes (differentiate P t x) := by
  by_cases hid : t = x
  · rw [differentiate.eq_def, if_pos hid]
    exact rfl
  rw [differentiate.eq_def, if_neg hid]
  match t with
  | .sym n =>
      show DiffRes (if n = termName x then _ else _)
      split
      · exact rfl
      · exact rfl
  | .const v => exact rfl
  | .trig k a => exact rfl
  | .integral i v lo hi => exact rfl
  | .expr op args =>
      simp only [wf, Bool.and_eq_true, Bool.or_eq_true] at h
      have harity : arithOp op = true → tlLength args = 2 := by
        intro hop
        rcases h.1 with hno | htwo
        · simp [hop] at hno
        · simpa using htwo
      dsimp only []
      by_cases hpm : op = "+" ∨ op = "-"
      · rw [if_pos hpm]
        have hL := differentiateList_classified P args x h.2
        cases hds : differentiateList P args x with
        | ok ds =>
            rw [hds] at hL
            show DiffRes (.ok (.expr op ds))
            show wf (.expr op ds) = true
            simp only [wf, Bool.and_eq_true, Bool.or_eq_true]
            refine ⟨?_, hL.1⟩
            rcases h.1 with hno | htwo
            · exact Or.inl hno
            · right
              simpa [hL.2] using htwo
        | error e =>
            rw [hds] at hL
            exact hL
      rw [if_neg hpm]
      by_cases hmul : op = "*"
      · rw [if_pos hmul]
        obtain ⟨u, v, he⟩ := tlLength_eq_two args (harity (by rw [hmul]; rfl))
        subst he
        simp only [wfList, Bool.and_eq_true] at h
        have hdu := differentiate_classified P u x h.2.1
        cases hu : differentiate P u x with
        | ok du =>
            rw [hu] at hdu
            have hdv := differentiate_classified P v x h.2.2.1
            cases hv : differentiate P v x with
            | ok dv =>
                rw [hv] at hdv
                show DiffRes (do
                  let du2 ← differentiate P u x
                  let dv2 ← differentiate P v x
                  Except.ok (.expr "+" (.cons (.expr "*" (.cons u (.cons dv2 .nil)))
                    (.cons (.expr "*" (.cons v (.cons du2 .nil))) .nil))))
                rw [hu, hv]
                show wf (.expr "+" (.cons (.expr "*" (.cons u (.cons dv .nil)))
                  (.cons (.expr "*" (.cons v (.cons du .nil))) .nil))) = true
                have hdu2 : wf du = true := hdu
                have hdv2 : wf dv = true := hdv
                simp [wf, wfList, arithOp, tlLength, h.2.1, h.2.2.1, hdu2, hdv2]
            | error e =>
                rw [hv] at hdv
                show DiffRes (do
                  let du2 ← differentiate P u x
                  let dv2 ← differentiate P v x
                  Except.ok (.expr "+" (.cons (.expr "*" (.cons u (.cons dv2 .nil)))
                    (.cons (.expr "*" (.cons v (.cons du2 .nil))) .nil))))
                rw [hu, hv]
                exact hdv
        | error e =>
            rw [hu] at hdu
            show DiffRes (do
              let du2 ← differentiate P u x
              let dv2 ← differentiate P v x
              Except.ok (.expr "+" (.cons (.expr "*" (.cons u (.cons dv2 .nil)))
                (.cons (.expr "*" (.cons v (.cons du2 .nil))) .nil))))
            rw [hu]
            exact hdu
      rw [if_neg hmul]
      by_cases hdiv : op = "/"
      · rw [if_pos hdiv]
        obtain ⟨u, v, he⟩ := tlLength_eq_two args (harity (by rw [hdiv]; rfl))
        subst he
        simp only [wfList, Bool.and_eq_true] at h
        have hdu := differentiate_classified P u x h.2.1
        cases hu : differentiate P u x with
        | ok du =>
            rw [hu] at hdu
            have hdv := differentiate_classified P v x h.2.2.1
            cases hv : differentiate P v x with
            | ok dv =>
                rw [hv] at hdv
                show DiffRes (do
                  let du2 ← differentiate P u x
                  let dv2 ← differentiate P v x
                  Except.ok (.expr "/" (.cons
                    (.expr "-" (.cons (.expr "*" (.cons v (.cons du2 .nil)))
                      (.cons (.expr "*" (.cons u (.cons dv2 .nil))) .nil)))
                    (.cons (.expr "^" (.cons v (.cons (.const (.num 2)) .nil))) .nil))))
                rw [hu, hv]
                show wf (.expr "/" (.cons
                  (.expr "-" (.cons (.expr "*" (.cons v (.cons du .nil)))
                    (.cons (.expr "*" (.cons u (.cons dv .nil))) .nil)))
                  (.cons (.expr "^" (.cons v (.cons (.const (.num 2)) .nil))) .nil))) = true
                have hdu2 : wf du = true := hdu
                have hdv2 : wf dv = true := hdv
                simp [wf, wfList, arithOp, tlLength, h.2.1, h.2.2.1, hdu2, hdv2]
            | error e =>
                rw [hv] at hdv
                show DiffRes (do
                  let du2 ← differentiate P u x
                  let dv2 ← differentiate P v x
                  Except.ok (.expr "/" (.cons
                    (.expr "-" (.cons (.expr "*" (.cons v (.cons du2 .nil)))
                      (.cons (.expr "*" (.cons u (.cons dv2 .nil))) .nil)))
                    (.cons (.expr "^" (.cons v (.cons (.const (.num 2)) .nil))) .nil))))
                rw [hu, hv]
                exact hdv
        | error e =>
            rw [hu] at hdu
            show DiffRes (do
              let du2 ← differentiate P u x
              let dv2 ← differentiate P v x
              Except.ok (.expr "/" (.cons
                (.expr "-" (.cons (.expr "*" (.cons v (.cons du2 .nil)))
                  (.cons (.expr "*" (.cons u (.cons dv2 .nil))) .nil)))
                (.cons (.expr "^" (.cons v (.cons (.const (.num 2)) .nil))) .nil))))
            rw [hu]
            exact hdu
      rw [if_neg hdiv]
      by_cases hpow : op = "^"
      · rw [if_pos hpow]
        obtain ⟨base, e, he⟩ := tlLength_eq_two args (harity (by rw [hpow]; rfl))
        subst he
        simp only [wfList, Bool.and_eq_true] at h
        have hwb : wf base = true := h.2.1
        have hwe : wf e = true := h.2.2.1
        cases e with
        | const n =>
            show wf (.expr "*" (.cons (.const n)
              (.cons (.expr "^" (.cons base (.cons (.const (jsSub n (.num 1))) .nil)))
               .nil))) = true
            simp [wf, wfList, arithOp, tlLength, hwb]
        | sym m =>
            cases base with
            | const a =>
                exact diffres_bind_wf _ _ (differentiate_classified P _ x hwe)
                  (fun d hd => by simp_all [wf, wfList, arithOp, tlLength])
            | sym m2 => exact rfl
            | expr op3 args3 => exact rfl
            | trig k3 a3 => exact rfl
            | integral i3 v3 lo3 hi3 => exact rfl
        | expr op2 args2 =>
            cases base with
            | const a =>
                exact diffres_bind_wf _ _ (differentiate_classified P _ x hwe)
                  (fun d hd => by simp_all [wf, wfList, arithOp, tlLength])
            | sym m2 => exact rfl
            | expr op3 args3 => exact rfl
            | trig k3 a3 => exact rfl
            | integral i3 v3 lo3 hi3 => exact rfl
        | trig k2 a2 =>
            cases base with
            | const a =>
                exact diffres_bind_wf _ _ (differentiate_classified P _ x hwe)
                  (fun d hd => by simp_all [wf, wfList, arithOp, tlLength])
            | sym m2 => exact rfl
            | expr op3 args3 => exact rfl
            | trig k3 a3 => exact rfl
            | integral i3 v3 lo3 hi3 => exact rfl
        | integral i2 v2 lo2 hi2 =>
            cases base with
            | const a =>
                exact diffres_bind_wf _ _ (differentiate_classified P _ x hwe)
                  (fun d hd => by simp_all [wf, wfList, arithOp, tlLength])
            | sym m2 => exact rfl
            | expr op3 args3 => exact rfl
            | trig k3 a3 => exact rfl
            | integral i3 v3 lo3 hi3 => exact rfl
      rw [if_neg hpow]
      exact rfl
/-- On a well-formed operand list, mapping `differentiate` either returns
a well-formed list of the same length or raises a differentiation
error. -/
theorem differentiateList_classified (P : JsPrim) (ts : TermList) (x : Term)
    (h : wfList ts = true) : DiffResL (tlLength ts) (differentiateList P ts x) := by
  match ts with
  | .nil => exact ⟨rfl, rfl⟩
  | .cons t ts =>
      simp only [wfList, Bool.and_eq_true] at h
      have hdt := differentiate_classified P t x h.1
      cases ht : differentiate P t x with
      | ok d =>
          rw [ht] at hdt
          have hdl := differentiateList_classified P ts x h.2
          cases hts : differentiateList P ts x with
          | ok ds =>
              rw [hts] at hdl
              show DiffResL _ (do
                let d2 ← differentiate P t x
                let ds2 ← differentiateList P ts x
                Except.ok (TermList.cons d2 ds2))
              rw [ht, hts]
              have hdt2 : wf d = true := hdt
              have hdl2 : wfList ds = true ∧ tlLength ds = tlLength ts := hdl
              exact ⟨by simp [wfList, hdt2, hdl2.1], by simp [tlLength, hdl2.2]⟩
          | error e =>
              rw [hts] at hdl
              show DiffResL _ (do
                let d2 ← differentiate P t x
                let ds2 ← differentiateList P ts x
                Except.ok (TermList.cons d2 ds2))
              rw [ht, hts]
              exact hdl
      | error e =>
          rw [ht] at hdt
          show DiffResL _ (do
            let d2 ← differentiate P t x
            let ds2 ← differentiateList P ts x
            Except.ok (TermList.cons d2 ds2))
          rw [ht]
          exact hdt
end

/-- Classification transport through a monadic bind for `integrate`
results. -/
theorem intres_bind_wf (r : Except Err Term) (f : Term → Term) (hr : IntRes r)
    (hf : ∀ d, wf d = true → wf (f d) = true) :
    IntRes (Except.bind r (fun d => Except.ok (f d))) := by
  cases r with
  | ok d => exact hf d hr
  | error e => exact hr

/-- An `Integral` wrapper node is well-formed when its four components
are. -/
theorem wf_integral_mk (t x : Term) (lo hi : OptTerm) (ht : wf t = true)
    (hx : wf x = true) (hlo : wfOpt lo = true) (hhi : wfOpt hi = true) :
    wf (.integral t x lo hi) = true := by
  simp [wf, ht, hx, hlo, hhi]

mutual
/-- On well-formed inputs, `integrate` either returns a well-formed term
or fails with a propagated differentiation error — or with the model's
fuel bound, standing for the unguarded recursion of the source.  In
particular integration never constructs an error of its own: every
`UnknownOperation` / `UnsupportedDifferentiation` /
`Cannot differentiate` it reports originates in the `differentiate` call
inside the by-parts heuristic. -/
theorem integrate_classified (P : JsPrim) (fuel : ℕ) (t x : Term) (lo hi : OptTerm)
    (ht : wf t = true) (hx : wf x = true) (hlo : wfOpt lo = true)
    (hhi : wfOpt hi = true) : IntRes (integrate P fuel t x lo hi) := by
  match fuel with
  | 0 => exact Or.inr rfl
  | fuel + 1 =>
    rw [integrate.eq_def]
    try dsimp only []
    cases lo with
    | someT l =>
        cases hi with
        | someT u =>
            show wf (.integral t x (.someT l) (.someT u)) = true
            exact wf_integral_mk _ _ _ _ ht hx hlo hhi
        | noneT =>
            try dsimp only []
            cases t with
            | const v =>
                show wf (.expr "*" (.cons (.const v) (.cons x .nil))) = true
                simp [wf, wfList, arithOp, tlLength, hx]
            | sym n =>
                try dsimp only []
                by_cases hname : termName (Term.sym n) = termName x
                · rw [if_pos hname]
                  show wf (.expr "*" (.cons (.const (.num (Rat.divInt 1 2)))
                    (.cons (.expr "^" (.cons x (.cons (.const (.num 2)) .nil))) .nil))) = true
                  simp [wf, wfList, arithOp, tlLength, hx]
                · rw [if_neg hname]
                  exact wf_integral_mk _ _ _ _ ht hx hlo hhi
            | trig k a =>
                try dsimp only []
                by_cases hname : termName (Term.trig k a) = termName x
                · rw [if_pos hname]
                  show wf (.expr "*" (.cons (.const (.num (Rat.divInt 1 2)))
                    (.cons (.expr "^" (.cons x (.cons (.const (.num 2)) .nil))) .nil))) = true
                  simp [wf, wfList, arithOp, tlLength, hx]
                · rw [if_neg hname]
                  exact wf_integral_mk _ _ _ _ ht hx hlo hhi
            | integral i2 v2 lo2 hi2 =>
                try dsimp only []
                by_cases hname : termName (Term.integral i2 v2 lo2 hi2) = termName x
                · rw [if_pos hname]
                  show wf (.expr "*" (.cons (.const (.num (Rat.divInt 1 2)))
                    (.cons (.expr "^" (.cons x (.cons (.const (.num 2)) .nil))) .nil))) = true
                  simp [wf, wfList, arithOp, tlLength, hx]
                · rw [if_neg hname]
                  exact wf_integral_mk _ _ _ _ ht hx hlo hhi
            | expr op args =>
                try dsimp only []
                by_cases hname : termName (Term.expr op args) = termName x
                · rw [if_pos hname]
                  show wf (.expr "*" (.cons (.const (.num (Rat.divInt 1 2)))
                    (.cons (.expr "^" (.cons x (.cons (.const (.num 2)) .nil))) .nil))) = true
                  simp [wf, wfList, arithOp, tlLength, hx]
                · rw [if_neg hname]
                  have ht0 := ht
                  simp only [wf, Bool.and_eq_true, Bool.or_eq_true] at ht
                  have harity : arithOp op = true → tlLength args = 2 := by
                    intro hop
                    rcases ht.1 with hno | htwo
                    · simp [hop] at hno
                    · simpa using htwo
                  by_cases hplus : op = "+"
                  · subst hplus
                    rw [if_pos rfl]
                    have hlen : tlLength args = 2 := harity rfl
                    have hL := integrateList_classified P fuel args x ht.2 hx
                    cases hds : integrateList P fuel args x with
                    | ok is2 =>
                        rw [hds] at hL
                        show wf (.expr "+" is2) = true
                        have hL2 : wfList is2 = true ∧ tlLength is2 = tlLength args := hL
                        simp [wf, wfList, arithOp, tlLength, hL2.1, hL2.2, hlen]
                    | error e =>
                        rw [hds] at hL
                        exact hL
                  · rw [if_neg hplus]
                    by_cases hmul : op = "*"
                    · subst hmul
                      rw [if_pos rfl]
                      obtain ⟨a, b, he⟩ := tlLength_eq_two args (harity rfl)
                      subst he
                      simp only [wfList, Bool.and_eq_true] at ht
                      have hwa : wf a = true := ht.2.1
                      have hwb : wf b = true := ht.2.2.1
                      have hconstmul : ∀ (c o : Term), wf c = true → wf o = true →
                          IntRes (do
                            let io ← integrate P fuel o x .noneT .noneT
                            Except.ok (.expr "*" (.cons c (.cons io .nil)))) := by
                        intro c o hwc hwo
                        exact intres_bind_wf _ _
                          (integrate_classified P fuel o x .noneT .noneT hwo hx rfl rfl)
                          (fun d hd => by simp [wf, wfList, arithOp, tlLength, hwc, hd])
                      have hbyparts : IntRes (do
                          let v ← integrate P fuel b x .noneT .noneT
                          let du ← differentiate P a x
                          let vdu ← integrate P fuel
                            (.expr "*" (.cons v (.cons du .nil))) x .noneT .noneT
                          Except.ok (.expr "-" (.cons (.expr "*" (.cons a (.cons v .nil)))
                            (.cons vdu .nil)))) := by
                        have hV := integrate_classified P fuel b x .noneT .noneT hwb hx rfl rfl
                        cases hv : integrate P fuel b x .noneT .noneT with
                        | error e =>
                            rw [hv] at hV
                            exact hV
                        | ok v =>
                            rw [hv] at hV
                            have hwv : wf v = true := hV
                            have hDU := differentiate_classified P a x hwa
                            cases hdu : differentiate P a x with
                            | error e =>
                                rw [hdu] at hDU
                                exact Or.inl hDU
                            | ok du =>
                                rw [hdu] at hDU
                                have hwdu : wf du = true := hDU
                                have hVDU := integrate_classified P fuel
                                  (.expr "*" (.cons v (.cons du .nil))) x .noneT .noneT
                                  (by simp [wf, wfList, arithOp, tlLength, hwv, hwdu]) hx rfl rfl
                                show IntRes (do
                                  let vdu ← integrate P fuel
                                    (.expr "*" (.cons v (.cons du .nil))) x .noneT .noneT
                                  Except.ok (.expr "-" (.cons (.expr "*" (.cons a (.cons v .nil)))
                                    (.cons vdu .nil))))
                                cases hvdu : integrate P fuel
                                    (.expr "*" (.cons v (.cons du .nil))) x .noneT .noneT with
                                | error e =>
                                    rw [hvdu] at hVDU
                                    exact hVDU
                                | ok vdu =>
                                    rw [hvdu] at hVDU
                                    show wf (.expr "-" (.cons (.expr "*" (.cons a (.cons v .nil)))
                                      (.cons vdu .nil))) = true
                                    have hwvdu : wf vdu = true := hVDU
                                    simp [wf, wfList, arithOp, tlLength, hwa, hwv, hwvdu]
                      cases a with
                      | const va => cases b <;> exact hconstmul _ _ rfl hwb
                      | sym na =>
                          cases b <;> first
                            | exact hconstmul _ _ rfl hwa
                            | exact hbyparts
                      | expr oa argsa =>
                          cases b <;> first
                            | exact hconstmul _ _ rfl hwa
                            | exact hbyparts
                      | trig ka aa =>
                          cases b <;> first
                            | exact hconstmul _ _ rfl hwa
                            | exact hbyparts
                      | integral ia va loa hia =>
                          cases b <;> first
                            | exact hconstmul _ _ rfl hwa
                            | exact hbyparts
                    · rw [if_neg hmul]
                      by_cases hpow : op = "^"
                      · subst hpow
                        rw [if_pos rfl]
                        obtain ⟨bb, ee, he⟩ := tlLength_eq_two args (harity rfl)
                        subst he
                        try dsimp only []
                        by_cases hbn : termName bb = termName x
                        · rw [if_pos hbn]
                          cases ee with
                          | const n =>
                              try dsimp only []
                              by_cases hn : n ≠ JsNum.num (-1)
                              · rw [if_pos hn]
                                show wf (.expr "*" (.cons
                                  (.expr "^" (.cons x (.cons (.const (jsAdd n (.num 1))) .nil)))
                                  (.cons (.const (jsDiv (.num 1) (jsAdd n (.num 1)))) .nil))) = true
                                simp [wf, wfList, arithOp, tlLength, hx]
                              · rw [if_neg hn]
                                exact wf_integral_mk _ _ _ _ ht0 hx hlo hhi
                          | sym ne2 => exact wf_integral_mk _ _ _ _ ht0 hx hlo hhi
                          | expr oe argse => exact wf_integral_mk _ _ _ _ ht0 hx hlo hhi
                          | trig ke ae => exact wf_integral_mk _ _ _ _ ht0 hx hlo hhi
                          | integral ie ve loe hie => exact wf_integral_mk _ _ _ _ ht0 hx hlo hhi
                        · rw [if_neg hbn]
                          exact wf_integral_mk _ _ _ _ ht0 hx hlo hhi
                      · rw [if_neg hpow]
                        exact wf_integral_mk _ _ _ _ ht0 hx hlo hhi
    | noneT =>
        try dsimp only []
        cases t with
        | const v =>
            show wf (.expr "*" (.cons (.const v) (.cons x .nil))) = true
            simp [wf, wfList, arithOp, tlLength, hx]
        | sym n =>
            try dsimp only []
            by_cases hname : termName (Term.sym n) = termName x
            · rw [if_pos hname]
              show wf (.expr "*" (.cons (.const (.num (Rat.divInt 1 2)))
                (.cons (.expr "^" (.cons x (.cons (.const (.num 2)) .nil))) .nil))) = true
              simp [wf, wfList, arithOp, tlLength, hx]
            · rw [if_neg hname]
              exact wf_integral_mk _ _ _ _ ht hx hlo hhi
        | trig k a =>
            try dsimp only []
            by_cases hname : termName (Term.trig k a) = termName x
            · rw [if_pos hname]
              show wf (.expr "*" (.cons (.const (.num (Rat.divInt 1 2)))
                (.cons (.expr "^" (.cons x (.cons (.const (.num 2)) .nil))) .nil))) = true
              simp [wf, wfList, arithOp, tlLength, hx]
            · rw [if_neg hname]
              exact wf_integral_mk _ _ _ _ ht hx hlo hhi
        | integral i2 v2 lo2 hi2 =>
            try dsimp only []
            by_cases hname : termName (Term.integral i2 v2 lo2 hi2) = termName x
            · rw [if_pos hname]
              show wf (.expr "*" (.cons (.const (.num (Rat.divInt 1 2)))
                (.cons (.expr "^" (.cons x (.cons (.const (.num 2)) .nil))) .nil))) = true
              simp [wf, wfList, arithOp, tlLength, hx]
            · rw [if_neg hname]
              exact wf_integral_mk _ _ _ _ ht hx hlo hhi
        | expr op args =>
            try dsimp only []
            by_cases hname : termName (Term.expr op args) = termName x
            · rw [if_pos hname]
              show wf (.expr "*" (.cons (.const (.num (Rat.divInt 1 2)))
                (.cons (.expr "^" (.cons x (.cons (.const (.num 2)) .nil))) .nil))) = true
              simp [wf, wfList, arithOp, tlLength, hx]
            · rw [if_neg hname]
              have ht0 := ht
              simp only [wf, Bool.and_eq_true, Bool.or_eq_true] at ht
              have harity : arithOp op = true → tlLength args = 2 := by
                intro hop
                rcases ht.1 with hno | htwo
                · simp [hop] at hno
                · simpa using htwo
              by_cases hplus : op = "+"
              · subst hplus
                rw [if_pos rfl]
                have hlen : tlLength args = 2 := harity rfl
                have hL := integrateList_classified P fuel args x ht.2 hx
                cases hds : integrateList P fuel args x with
                | ok is2 =>
                    rw [hds] at hL
                    show wf (.expr "+" is2) = true
                    have hL2 : wfList is2 = true ∧ tlLength is2 = tlLength args := hL
                    simp [wf, wfList, arithOp, tlLength, hL2.1, hL2.2, hlen]
                | error e =>
                    rw [hds] at hL
                    exact hL
              · rw [if_neg hplus]
                by_cases hmul : op = "*"
                · subst hmul
                  rw [if_pos rfl]
                  obtain ⟨a, b, he⟩ := tlLength_eq_two args (harity rfl)
                  subst he
                  simp only [wfList, Bool.and_eq_true] at ht
                  have hwa : wf a = true := ht.2.1
                  have hwb : wf b = true := ht.2.2.1
                  have hconstmul : ∀ (c o : Term), wf c = true → wf o = true →
                      IntRes (do
                        let io ← integrate P fuel o x .noneT .noneT
                        Except.ok (.expr "*" (.cons c (.cons io .nil)))) := by
                    intro c o hwc hwo
                    exact intres_bind_wf _ _
                      (integrate_classified P fuel o x .noneT .noneT hwo hx rfl rfl)
                      (fun d hd => by simp [wf, wfList, arithOp, tlLength, hwc, hd])
                  have hbyparts : IntRes (do
                      let v ← integrate P fuel b x .noneT .noneT
                      let du ← differentiate P a x
                      let vdu ← integrate P fuel
                        (.expr "*" (.cons v (.cons du .nil))) x .noneT .noneT
                      Except.ok (.expr "-" (.cons (.expr "*" (.cons a (.cons v .nil)))
                        (.cons vdu .nil)))) := by
                    have hV := integrate_classified P fuel b x .noneT .noneT hwb hx rfl rfl
                    cases hv : integrate P fuel b x .noneT .noneT with
                    | error e =>
                        rw [hv] at hV
                        exact hV
                    | ok v =>
                        rw [hv] at hV
                        have hwv : wf v = true := hV
                        have hDU := differentiate_classified P a x hwa
                        cases hdu : differentiate P a x with
                        | error e =>
                            rw [hdu] at hDU
                            exact Or.inl hDU
                        | ok du =>
                            rw [hdu] at hDU
                            have hwdu : wf du = true := hDU
                            have hVDU := integrate_classified P fuel
                              (.expr "*" (.cons v (.cons du .nil))) x .noneT .noneT
                              (by simp [wf, wfList, arithOp, tlLength, hwv, hwdu]) hx rfl rfl
                            show IntRes (do
                              let vdu ← integrate P fuel
                                (.expr "*" (.cons v (.cons du .nil))) x .noneT .noneT
                              Except.ok (.expr "-" (.cons (.expr "*" (.cons a (.cons v .nil)))
                                (.cons vdu .nil))))
                            cases hvdu : integrate P fuel
                                (.expr "*" (.cons v (.cons du .nil))) x .noneT .noneT with
                            | error e =>
                                rw [hvdu] at hVDU
                                exact hVDU
                            | ok vdu =>
                                rw [hvdu] at hVDU
                                show wf (.expr "-" (.cons (.expr "*" (.cons a (.cons v .nil)))
                                  (.cons vdu .nil))) = true
                                have hwvdu : wf vdu = true := hVDU
                                simp [wf, wfList, arithOp, tlLength, hwa, hwv, hwvdu]
                  cases a with
                  | const va => cases b <;> exact hconstmul _ _ rfl hwb
                  | sym na =>
                      cases b <;> first
                        | exact hconstmul _ _ rfl hwa
                        | exact hbyparts
                  | expr oa argsa =>
                      cases b <;> first
                        | exact hconstmul _ _ rfl hwa
                        | exact hbyparts
                  | trig ka aa =>
                      cases b <;> first
                        | exact hconstmul _ _ rfl hwa
                        | exact hbyparts
                  | integral ia va loa hia =>
                      cases b <;> first
                        | exact hconstmul _ _ rfl hwa
                        | exact hbyparts
                · rw [if_neg hmul]
                  by_cases hpow : op = "^"
                  · subst hpow
                    rw [if_pos rfl]
                    obtain ⟨bb, ee, he⟩ := tlLength_eq_two args (harity rfl)
                    subst he
                    try dsimp only []
                    by_cases hbn : termName bb = termName x
                    · rw [if_pos hbn]
                      cases ee with
                      | const n =>
                          try dsimp only []
                          by_cases hn : n ≠ JsNum.num (-1)
                          · rw [if_pos hn]
                            show wf (.expr "*" (.cons
                              (.expr "^" (.cons x (.cons (.const (jsAdd n (.num 1))) .nil)))
                              (.cons (.const (jsDiv (.num 1) (jsAdd n (.num 1)))) .nil))) = true
                            simp [wf, wfList, arithOp, tlLength, hx]
                          · rw [if_neg hn]
                            exact wf_integral_mk _ _ _ _ ht0 hx hlo hhi
                      | sym ne2 => exact wf_integral_mk _ _ _ _ ht0 hx hlo hhi
                      | expr oe argse => exact wf_integral_mk _ _ _ _ ht0 hx hlo hhi
                      | trig ke ae => exact wf_integral_mk _ _ _ _ ht0 hx hlo hhi
                      | integral ie ve loe hie => exact wf_integral_mk _ _ _ _ ht0 hx hlo hhi
                    · rw [if_neg hbn]
                      exact wf_integral_mk _ _ _ _ ht0 hx hlo hhi
                  · rw [if_neg hpow]
                    exact wf_integral_mk _ _ _ _ ht0 hx hlo hhi
/-- Mapping `integrate` over a well-formed operand list, classified. -/
theorem integrateList_classified (P : JsPrim) (fuel : ℕ) (ts : TermList) (x : Term)
    (h : wfList ts = true) (hx : wf x = true) :
    IntResL (tlLength ts) (integrateList P fuel ts x) := by
  match fuel, ts with
  | 0, .nil => exact ⟨rfl, rfl⟩
  | fuel + 1, .nil => exact ⟨rfl, rfl⟩
  | 0, .cons t ts => exact Or.inr rfl
  | fuel + 1, .cons t ts =>
      simp only [wfList, Bool.and_eq_true] at h
      have hI := integrate_classified P fuel t x .noneT .noneT h.1 hx rfl rfl
      show IntResL _ (do
        let i ← integrate P fuel t x .noneT .noneT
        let is ← integrateList P fuel ts x
        Except.ok (TermList.cons i is))
      cases hti : integrate P fuel t x .noneT .noneT with
      | error e =>
          rw [hti] at hI
          exact hI
      | ok i =>
          rw [hti] at hI
          have hwi : wf i = true := hI
          have hL := integrateList_classified P fuel ts x h.2 hx
          cases hts : integrateList P fuel ts x with
          | error e =>
              rw [hts] at hL
              exact hL
          | ok is2 =>
              rw [hts] at hL
              have hL2 : wfList is2 = true ∧ tlLength is2 = tlLength ts := hL
              show wfList (TermList.cons i is2) = true ∧
                tlLength (TermList.cons i is2) = tlLength (TermList.cons t ts)
              exact ⟨by simp [wfList, hwi, hL2.1], by simp [tlLength, hL2.2]⟩
end

/-- C1 (amended): integration does not always succeed — the by-parts
heuristic calls `differentiate`, whose failures propagate out of
`integrate` — but that is the only failure mode: on well-formed inputs
every error `integrate` returns is one of differentiation's own three
errors (`UnknownOperation`, `General exponent differentiation not yet
implemented`, `Cannot differentiate`), or the model's explicit fuel
bound, which stands for the source's unguarded recursion.  Integration
itself constructs no error. -/
theorem c1_integrate_errors_classified (P : JsPrim) (fuel : ℕ) (t x : Term)
    (lo hi : OptTerm) (ht : wf t = true) (hx : wf x = true)
    (hlo : wfOpt lo = true) (hhi : wfOpt hi = true) (e : Err)
    (he : integrate P fuel t x lo hi = .error e) :
    e.isDiffError = true ∨ e = .outOfFuel := by
  have h := integrate_classified P fuel t x lo hi ht hx hlo hhi
  rw [he] at h
  exact h

/-- C1 witness: `∫ (x^x · x) dx` at fuel 10 fails with the propagated
`General exponent differentiation not yet implemented` error, and the
amended classification applies to it. -/
theorem c1_integrate_errors_classified_witness :
    wf c1ByPartsInput = true
    ∧ integrate P0 10 c1ByPartsInput (.sym "x") .noneT .noneT
        = .error .unsupportedDifferentiation
    ∧ (Err.unsupportedDifferentiation.isDiffError = true
        ∨ Err.unsupportedDifferentiation = Err.outOfFuel) :=
  ⟨by decide, rfl,
    c1_integrate_errors_classified P0 10 c1ByPartsInput (.sym "x") .noneT .noneT
      (by decide) rfl rfl rfl Err.unsupportedDifferentiation rfl⟩
